import Mathlib

/-!
# scnlib: UTF-8 decoder and the basic typed scanners

A shallow embedding of `include/scn/detail/utf8.h` and
`include/scn/detail/reader/types.h`.

Conventions of the embedding.

* A code unit is a natural number (its unsigned value); a byte sequence is a
  `List Nat`.  The source masks with `mask8` wherever it needs eight bits and
  the embedding keeps those masks.
* An iterator into a sequence `s` is an index `it : Nat`; the sentinel `end`
  is `s.length`.  Dereferencing is fallible (`s[it]?`): a read at or beyond
  `end`, or a failed `SCN_EXPECT`, makes the whole computation `none`.
* `code_point` is `uint32_t`.  Every intermediate value the decoder builds is
  below `2 ^ 26` (a masked byte shifted left by at most 18), so no
  arithmetic wraps and the values are plain naturals.
* C++ reference parameters become extra components of the result.
-/

namespace scn

/-- Modelled from the spec: the `error` class is declared outside these
sources; the model keeps the error kinds of the closed enumeration the
specification lists (§6, §7) and `good` for the value-initialised `error{}`.
Diagnostic strings are dropped: callers branch on the kind only. -/
inductive error where
  | good
  | end_of_range
  | invalid_format_string
  | invalid_scanned_value
  | invalid_encoding
  deriving DecidableEq

/-- The `explicit operator bool` of `error`: true when no error is held. -/
def error.ok (e : error) : Bool :=
  match e with
  | error.good => true
  | _ => false

namespace detail

def code_point_max : Nat := 0x10ffff
def lead_surrogate_min : Nat := 0xd800
def lead_surrogate_max : Nat := 0xdbff
def trail_surrogate_min : Nat := 0xdc00
def trail_surrogate_max : Nat := 0xdfff

/-- The cast `static_cast<uint8_t>(0xff & o)`. -/
def mask8 (o : Nat) : Nat := 0xff &&& o

/-- The test `(mask8(o) >> 6) == 2`. -/
def is_trail (o : Nat) : Bool := (mask8 o >>> 6) == 2

def is_surrogate (cp : Nat) : Bool :=
  decide (cp ≥ lead_surrogate_min) && decide (cp ≤ trail_surrogate_max)

def is_code_point_valid (cp : Nat) : Bool :=
  decide (cp ≤ code_point_max) && !is_surrogate cp

end detail

def get_sequence_length (ch : Nat) : Nat :=
  let lead := detail.mask8 ch
  if lead < 0x80 then 1
  else if lead >>> 5 = 6 then 2
  else if lead >>> 4 = 0xe then 3
  else if lead >>> 3 = 0x1e then 4
  else 0

namespace detail

def is_overlong_sequence (cp : Nat) (len : Nat) : Bool :=
  if cp < 0x80 then
    (if len ≠ 1 then true else false)
  else if cp < 0x800 then
    (if len ≠ 2 then true else false)
  else if cp < 0x10000 then
    (if len ≠ 3 then true else false)
  else false

/-- What a decoder helper leaves behind: the returned `error`, the iterator
`it` (passed by reference) and the code point `cp` (passed by reference). -/
structure decoded where
  err : error
  it : Nat
  cp : Nat
  deriving DecidableEq

/-- Moves the iterator of a decoder result `n` positions forward. -/
def decoded.shift (n : Nat) (d : decoded) : decoded := ⟨d.err, n + d.it, d.cp⟩

/-- The function `increase_safely(it, end)`: the result is the error and the
advanced iterator.  `none` would be a read outside the sequence. -/
def increase_safely (s : List Nat) (it : Nat) : Option (error × Nat) :=
  let it := it + 1
  if it = s.length then some (error.invalid_encoding, it)
  else
    match s[it]? with
    | none => none
    | some b =>
      if !is_trail b then some (error.invalid_encoding, it)
      else some (error.good, it)

def get_sequence_1 (s : List Nat) (it : Nat) (_cp : Nat) : Option decoded :=
  if it = s.length then none
  else
    match s[it]? with
    | none => none
    | some b0 => some ⟨error.good, it, mask8 b0⟩

def get_sequence_2 (s : List Nat) (it : Nat) (_cp : Nat) : Option decoded :=
  if it = s.length then none
  else
    match s[it]? with
    | none => none
    | some b0 =>
      let cp := mask8 b0
      match increase_safely s it with
      | none => none
      | some (e, it) =>
        if !e.ok then some ⟨e, it, cp⟩
        else
          match s[it]? with
          | none => none
          | some b1 =>
            some ⟨error.good, it, ((cp <<< 6) &&& 0x7ff) + (b1 &&& 0x3f)⟩

def get_sequence_3 (s : List Nat) (it : Nat) (_cp : Nat) : Option decoded :=
  if it = s.length then none
  else
    match s[it]? with
    | none => none
    | some b0 =>
      let cp := mask8 b0
      match increase_safely s it with
      | none => none
      | some (e, it) =>
        if !e.ok then some ⟨e, it, cp⟩
        else
          match s[it]? with
          | none => none
          | some b1 =>
            let cp := ((cp <<< 12) &&& 0xffff) + ((mask8 b1 <<< 6) &&& 0xfff)
            match increase_safely s it with
            | none => none
            | some (e, it) =>
              if !e.ok then some ⟨e, it, cp⟩
              else
                match s[it]? with
                | none => none
                | some b2 => some ⟨error.good, it, cp + (b2 &&& 0x3f)⟩

def get_sequence_4 (s : List Nat) (it : Nat) (_cp : Nat) : Option decoded :=
  if it = s.length then none
  else
    match s[it]? with
    | none => none
    | some b0 =>
      let cp := mask8 b0
      match increase_safely s it with
      | none => none
      | some (e, it) =>
        if !e.ok then some ⟨e, it, cp⟩
        else
          match s[it]? with
          | none => none
          | some b1 =>
            let cp := ((cp <<< 18) &&& 0x1fffff) + ((mask8 b1 <<< 12) &&& 0x3ffff)
            match increase_safely s it with
            | none => none
            | some (e, it) =>
              if !e.ok then some ⟨e, it, cp⟩
              else
                match s[it]? with
                | none => none
                | some b2 =>
                  let cp := cp + ((mask8 b2 <<< 6) &&& 0xfff)
                  match increase_safely s it with
                  | none => none
                  | some (e, it) =>
                    if !e.ok then some ⟨e, it, cp⟩
                    else
                      match s[it]? with
                      | none => none
                      | some b3 => some ⟨error.good, it, cp + (b3 &&& 0x3f)⟩

/-- The function `validate_next(it, end, cp)`.  The `switch` has no default
case; `get_sequence_length` only returns 0..4, and for any other value the
value-initialised `e` would be used with `it` and `cp` untouched. -/
def validate_next (s : List Nat) (it : Nat) (cp : Nat) : Option decoded :=
  if it = s.length then none
  else
    match s[it]? with
    | none => none
    | some b =>
      let len := get_sequence_length b
      if len = 0 then some ⟨error.invalid_encoding, it, cp⟩
      else
        let r :=
          if len = 1 then get_sequence_1 s it cp
          else if len = 2 then get_sequence_2 s it cp
          else if len = 3 then get_sequence_3 s it cp
          else if len = 4 then get_sequence_4 s it cp
          else some ⟨error.good, it, cp⟩
        match r with
        | none => none
        | some ⟨e, it, cp⟩ =>
          if !e.ok then some ⟨e, it, cp⟩
          else if !is_code_point_valid cp || is_overlong_sequence cp len then
            some ⟨error.invalid_encoding, it, cp⟩
          else some ⟨error.good, it + 1, cp⟩

end detail

/-- Modelled from the spec: `expected<T>` is declared outside these sources;
it holds either a value or an `error`. -/
inductive expected (α : Type) where
  | value (v : α)
  | failure (e : error)
  deriving DecidableEq

/-- The function `parse_code_point(begin, end, cp)`.  `begin` is passed by
value; the result pairs the returned `expected<I>` with the final `cp`,
which is written on success only. -/
def parse_code_point (s : List Nat) (begin_ : Nat) (cp : Nat) :
    Option (expected Nat × Nat) :=
  match detail.validate_next s begin_ 0 with
  | none => none
  | some ⟨e, it, c⟩ =>
    if e.ok then some (expected.value it, c)
    else some (expected.failure e, cp)

/-- The minimal UTF-8 encoding of a value below `0x200000`, as the Unicode
standard defines it: one byte `0xxxxxxx` below `0x80`, two bytes
`110xxxxx 10xxxxxx` below `0x800`, three bytes `1110xxxx 10xxxxxx 10xxxxxx`
below `0x10000`, four bytes `11110xxx 10xxxxxx 10xxxxxx 10xxxxxx` above. -/
def utf8_encode (cp : Nat) : List Nat :=
  if cp < 0x80 then [cp]
  else if cp < 0x800 then [0xc0 + cp / 0x40, 0x80 + cp % 0x40]
  else if cp < 0x10000 then
    [0xe0 + cp / 0x1000, 0x80 + cp / 0x40 % 0x40, 0x80 + cp % 0x40]
  else
    [0xf0 + cp / 0x40000, 0x80 + cp / 0x1000 % 0x40, 0x80 + cp / 0x40 % 0x40,
      0x80 + cp % 0x40]

/-- The sequence length a lead byte announces by its high bits (§4.1):
`0xxxxxxx` 1, `110xxxxx` 2, `1110xxxx` 3, `11110xxx` 4, and 0 for any other
bit pattern. -/
def announced_length (b : Nat) : Nat :=
  if b / 0x80 = 0 then 1
  else if b / 0x20 = 6 then 2
  else if b / 0x10 = 0xe then 3
  else if b / 0x8 = 0x1e then 4
  else 0

/-- The value carried by the payload bits of `110xxxxx 10yyyyyy`. -/
def utf8_value_2 (b0 b1 : Nat) : Nat := b0 % 0x20 * 0x40 + b1 % 0x40

/-- The value carried by the payload bits of `1110xxxx 10yyyyyy 10zzzzzz`. -/
def utf8_value_3 (b0 b1 b2 : Nat) : Nat :=
  b0 % 0x10 * 0x1000 + b1 % 0x40 * 0x40 + b2 % 0x40

/-- The value carried by the payload bits of
`11110xxx 10yyyyyy 10zzzzzz 10wwwwww`. -/
def utf8_value_4 (b0 b1 b2 b3 : Nat) : Nat :=
  b0 % 0x8 * 0x40000 + b1 % 0x40 * 0x1000 + b2 % 0x40 * 0x40 + b3 % 0x40

namespace detail

/-- The function `ascii_widen<char_type>(ch)`: the code unit of an ASCII
character. -/
def ascii_widen (ch : Char) : Nat := ch.toNat

/-- The code units of an ASCII string literal. -/
def widen (s : String) : List Nat := s.toList.map ascii_widen

/-- Modelled from the spec: the character cursor (`ctx.range()`, declared
outside these sources), §3 and §4.2: it wraps a sequence of characters and
exposes a current read position that reads advance and putback rewinds. -/
structure cursor where
  input : List Nat
  pos : Nat
  deriving DecidableEq

/-- What a scanner leaves behind: the returned `error`, the value parameter
(passed by reference) and the cursor held by the context. -/
structure scanned (α : Type) where
  err : error
  val : α
  range : cursor
  deriving DecidableEq

/-- Modelled from the spec: `read_char` (`read_one()` of §4.2, declared
outside these sources) returns the next character and advances by one, or
fails with `end_of_range` on exhausted input, leaving the cursor as it was.
The characters of the model are already decoded, so no decoding error
arises. -/
def read_char (r : cursor) : expected Nat × cursor :=
  match r.input[r.pos]? with
  | none => (expected.failure error.end_of_range, r)
  | some c => (expected.value c, { r with pos := r.pos + 1 })

/-- Modelled from the spec: `read_until_space` (`read_until` of §4.2, declared
outside these sources) accumulates characters into the output sink until the
predicate matches or input ends; with `keep_final_space = false` the matching
delimiter is excluded from both the sink and the consumed-input accounting.
On exhausted input (no characters) it fails with `end_of_range` (§7) and
leaves the cursor as it was.  The result holds the error, the characters
written to the sink and the cursor. -/
def read_until_space (r : cursor) (is_space : Nat → Bool)
    (keep_final_space : Bool) : error × List Nat × cursor :=
  let rest := r.input.drop r.pos
  match rest with
  | [] => (error.end_of_range, [], r)
  | _ :: _ =>
    let word := rest.takeWhile (fun c => !is_space c)
    match rest.drop word.length with
    | [] => (error.good, word, { r with pos := r.pos + word.length })
    | d :: _ =>
      if keep_final_space then
        (error.good, word ++ [d], { r with pos := r.pos + word.length + 1 })
      else (error.good, word, { r with pos := r.pos + word.length })

/-- Modelled from the spec: `putback_n` (§4.2, declared outside these
sources) rewinds the read position by `n` characters.  A rewind larger than
what was consumed violates the caller contract and fails fast (`none`). -/
def putback_n (r : cursor) (n : Nat) : Option (error × cursor) :=
  if n ≤ r.pos then some (error.good, { r with pos := r.pos - n })
  else none

/-- Modelled from the spec: the locale provider contract of §6 (`locale.h` is
outside these sources): the static and the localized boolean names and the
two character-class predicates, whose second argument selects the localized
variant. -/
structure locale where
  static_truename : List Nat
  static_falsename : List Nat
  localized_truename : List Nat
  localized_falsename : List Nat
  is_space : Nat → Bool → Bool
  is_digit : Nat → Bool → Bool

/-- The predicate `make_is_space_predicate(ctx.locale(), localized)`. -/
def make_is_space_predicate (loc : locale) (localized : Bool) : Nat → Bool :=
  fun ch => loc.is_space ch localized

/-- Modelled from the spec: the shared options of `common_parser` (declared
outside these sources), kept as named booleans (§3, §9); only `localized` is
consulted by the scanners embedded here. -/
structure common_options_type where
  localized : Bool
  deriving DecidableEq

/-- Modelled from the spec: the configuration of `integer_scanner<int>`
(`int.h` is outside these sources), kept as named booleans (§9): the shared
`localized` option and the format options `only_unsigned` and
`localized_digits`. -/
structure integer_scanner where
  localized : Bool
  only_unsigned : Bool
  localized_digits : Bool
  deriving DecidableEq

/-- The type of `integer_scanner<int>::scan(i, ctx)`, which the boolean
scanner calls and whose body is outside these sources: from the
configuration, the locale, the initial `i` and the cursor to the error, the
final `i` and the cursor. -/
abbrev integer_scan_fn : Type :=
  integer_scanner → locale → Int → cursor → Option (scanned Int)

/-- The algorithm `std::equal(first1, last1, first2)`: the elements of the
first range against as many leading elements of the second.  Both calls in
`bool_scanner::scan` are guarded by a size test, so the second range is
never shorter; the model answers `false` should it be. -/
def std_equal : List Nat → List Nat → Bool
  | [], _ => true
  | _ :: _, [] => false
  | x :: xs, y :: ys => x == y && std_equal xs ys

/-- Modelled from the spec: `parse_common` of `common_parser` (§4.3, declared
outside these sources).  From the format text just inside a `{...}` token it
consumes characters up to the closing delimiter, setting the flag of each
recognised option character and the shared `localized` option on `L`; an
unrecognised character or a token without closing delimiter fails with
`invalid_format_string`.  The per-character hook is `null_each` in every
caller embedded here and is left out.  The result holds the error, the
shared options, the remaining format text and the flags. -/
def parse_common (co : common_options_type) (pctx : List Nat) (type_options : List Nat)
    (type_flags : List Bool) : error × common_options_type × List Nat × List Bool :=
  match pctx with
  | [] => (error.invalid_format_string, co, [], type_flags)
  | ch :: rest =>
    if ch = ascii_widen '}' then (error.good, co, pctx, type_flags)
    else if type_options.indexOf ch < type_options.length then
      parse_common co rest type_options (type_flags.set (type_options.indexOf ch) true)
    else if ch = ascii_widen 'L' then
      parse_common { co with localized := true } rest type_options type_flags
    else (error.invalid_format_string, co, pctx, type_flags)

/-- The `bool_scanner` object: `common_options` inherited from
`common_parser`, cleared in a fresh object, and `format_options` with its
default member initialiser `allow_string | allow_int`. -/
structure bool_scanner where
  common_options : common_options_type := ⟨false⟩
  format_options : Nat := 1 ||| 2
  deriving DecidableEq

namespace bool_scanner

def allow_string : Nat := 1
def allow_int : Nat := 2
def localized_digits : Nat := 4

/-- The member function `bool_scanner::parse(pctx)`: the result holds the
error, the scanner object and the remaining format text. -/
def parse (self : bool_scanner) (pctx : List Nat) : error × bool_scanner × List Nat :=
  Id.run do
    let options := [ascii_widen 's', ascii_widen 'i', ascii_widen 'n']
    let flags := [false, false, false]
    let (e, co, pctx, flags) := parse_common self.common_options pctx options flags
    let mut self := { self with common_options := co }
    if !e.ok then
      return (e, self, pctx)
    self := { self with format_options := 0 }
    if !flags.getD 0 false && !flags.getD 1 false then
      self := { self with format_options := self.format_options ||| (allow_string ||| allow_int) }
    if flags.getD 0 false then
      self := { self with format_options := self.format_options ||| allow_string }
    if flags.getD 1 false then
      self := { self with format_options := self.format_options ||| allow_int }
    if flags.getD 2 false then
      self := { self with format_options := self.format_options ||| localized_digits }
      self := { self with common_options := { self.common_options with localized := true } }
    return (error.good, self, pctx)

/-- The member function `bool_scanner::scan(val, ctx)`.  The context supplies
the cursor `r`, the locale `loc` and, for the digits of a locale, the integer
scanner `int_scan`. -/
def scan (self : bool_scanner) (int_scan : integer_scan_fn) (loc : locale)
    (val : Bool) (r : cursor) : Option (scanned Bool) := do
  let mut val := val
  let mut r := r
  if self.format_options &&& allow_string ≠ 0 then
    let mut truename := loc.static_truename
    let mut falsename := loc.static_falsename
    if self.common_options.localized then
      truename := loc.localized_truename
      falsename := loc.localized_falsename
    let is_space_pred := make_is_space_predicate loc self.common_options.localized
    let (e, buf, r1) := read_until_space r is_space_pred false
    r := r1
    if !e.ok then
      return ⟨e, val, r⟩
    let mut found := false
    if buf.length ≥ falsename.length then
      if std_equal falsename buf then
        val := false
        found := true
    if !found && decide (buf.length ≥ truename.length) then
      if std_equal truename buf then
        val := true
        found := true
    if found then
      return ⟨error.good, val, r⟩
    else
      let (pb, r2) ← putback_n r buf.length
      r := r2
      if !pb.ok then
        return ⟨pb, val, r⟩
  if self.format_options &&& allow_int ≠ 0 then
    if self.format_options &&& localized_digits ≠ 0 then
      let s : integer_scanner :=
        { localized := true, only_unsigned := true, localized_digits := true }
      let ⟨e, i, r1⟩ ← int_scan s loc 0 r
      r := r1
      if !e.ok then
        return ⟨e, val, r⟩
      if i ≠ 0 ∧ i ≠ 1 then
        return ⟨error.invalid_scanned_value, val, r⟩
      else if i = 0 then
        val := false
      else
        val := true
      return ⟨error.good, val, r⟩
    let (tmp, r1) := read_char r
    r := r1
    match tmp with
    | expected.failure e => return ⟨e, val, r⟩
    | expected.value ch =>
      if ch = ascii_widen '0' then
        val := false
        return ⟨error.good, val, r⟩
      if ch = ascii_widen '1' then
        val := true
        return ⟨error.good, val, r⟩
      let (pb, r2) ← putback_n r 1
      r := r2
      if !pb.ok then
        return ⟨pb, val, r⟩
  return ⟨error.invalid_scanned_value, val, r⟩

end bool_scanner

/-- Modelled from the spec: `read_zero_copy` (§4.2, declared outside these
sources) attempts to return a contiguous view of exactly `n` characters
without copying.  When zero-copy is structurally impossible (the source is
not contiguous) it returns an empty result, not an error.  On a contiguous
source it fails with `end_of_range` when no character is left (§7);
otherwise it returns a view of the next characters, `n` of them when that
many are available and the fewer that are left when not (§4.4: it may yield
fewer than `n` characters), and the characters of the view are consumed: the
cursor is advanced past exactly the characters it returns (§3). -/
def read_zero_copy (contiguous : Bool) (r : cursor) (n : Nat) :
    expected (List Nat) × cursor :=
  if !contiguous then (expected.value [], r)
  else
    let rest := r.input.drop r.pos
    match rest with
    | [] => (expected.failure error.end_of_range, r)
    | _ :: _ =>
      let view := rest.take n
      (expected.value view, { r with pos := r.pos + view.length })

/-- Modelled from the spec: `read_into` (§4.2, declared outside these
sources) copies exactly `n` characters into caller-provided storage and
advances past them, failing with `end_of_range` if fewer are available, the
cursor then left as it was.  The result holds the error, the characters
written through the output iterator and the cursor. -/
def read_into (r : cursor) (n : Nat) : error × List Nat × cursor :=
  let rest := r.input.drop r.pos
  if n ≤ rest.length then (error.good, rest.take n, { r with pos := r.pos + n })
  else (error.end_of_range, [], r)

/-- The type of the call `read_zero_copy(ctx.range(), n)`: the returned
`expected<span>` and the cursor. -/
abbrev read_zero_copy_fn : Type := cursor → Nat → expected (List Nat) × cursor

/-- The type of the call `read_into(ctx.range(), it, n)`: the error, the
characters written through `it` and the cursor. -/
abbrev read_into_fn : Type := cursor → Nat → error × List Nat × cursor

/-- The call `std::memcpy(dst, src, n)` on character storage: the first `n`
characters of `dst` are overwritten with those of `src`. -/
def memcpy (dst src : List Nat) (n : Nat) : List Nat := src.take n ++ dst.drop n

namespace char_scanner

/-- The member function `char_scanner::skip_preceding_whitespace()`. -/
def skip_preceding_whitespace : Bool := false

/-- The member function `char_scanner::scan(val, ctx)`. -/
def scan (val : Nat) (r : cursor) : scanned Nat :=
  let (ch, r1) := read_char r
  match ch with
  | expected.failure e => ⟨e, val, r1⟩
  | expected.value c => ⟨error.good, c, r1⟩

end char_scanner

namespace buffer_scanner

/-- The member function `buffer_scanner::scan(val, ctx)`.  The destination
span `val` is the list of the characters it holds.  The two reads on the
cursor, whose bodies are outside these sources, are the parameters `rzc`
(`read_zero_copy`) and `rinto` (`read_into`); the temporary `buf` is
value-initialised and filled through the iterator `it`. -/
def scan (rzc : read_zero_copy_fn) (rinto : read_into_fn) (val : List Nat)
    (r : cursor) : scanned (List Nat) := Id.run do
  if val.length = 0 then
    return ⟨error.good, val, r⟩
  let (s, r1) := rzc r val.length
  match s with
  | expected.failure e => return ⟨e, val, r1⟩
  | expected.value sv =>
    if sv.length ≠ 0 then
      if sv.length ≠ val.length then
        return ⟨error.end_of_range, val, r1⟩
      return ⟨error.good, memcpy val sv sv.length, r1⟩
    let buf := List.replicate val.length 0
    let (e, written, r2) := rinto r1 val.length
    let buf := memcpy buf written written.length
    if !e.ok then
      return ⟨e, val, r2⟩
    return ⟨error.good, memcpy val buf buf.length, r2⟩

end buffer_scanner

/-- The true-name the string form compares against: the localized name when
the `localized` option is set, the static name otherwise. -/
def active_truename (self : bool_scanner) (loc : locale) : List Nat :=
  if self.common_options.localized then loc.localized_truename else loc.static_truename

/-- The false-name the string form compares against. -/
def active_falsename (self : bool_scanner) (loc : locale) : List Nat :=
  if self.common_options.localized then loc.localized_falsename else loc.static_falsename

/-- The leading word of the unread input: its characters up to the next
white space or the end of input. -/
def leading_word (loc : locale) (localized : Bool) (r : cursor) : List Nat :=
  (r.input.drop r.pos).takeWhile (fun ch => !loc.is_space ch localized)

/-- A locale for worked examples: the names `true` and `false` in both
variants, ASCII white space and ASCII decimal digits. -/
def classic_locale : locale :=
  { static_truename := widen "true"
    static_falsename := widen "false"
    localized_truename := widen "true"
    localized_falsename := widen "false"
    is_space := fun ch _ => ch == 0x20 || (decide (0x09 ≤ ch) && decide (ch ≤ 0x0d))
    is_digit := fun ch _ => decide (0x30 ≤ ch) && decide (ch ≤ 0x39) }

/-- Modelled from the spec: an integer scanner for worked examples
(`integer_scanner<int>::scan` is in `int.h`, outside these sources), obeying
the scanner contract of §3 and §4.4 and the error taxonomy of §7: on
exhausted input it fails with `end_of_range`; otherwise it reads the longest
run of digits of the locale and yields their decimal value with the cursor
advanced past exactly that run, and without a leading digit it fails with
`invalid_scanned_value`.  A failure leaves the cursor as it was. -/
def decimal_integer_scan : integer_scan_fn := fun s loc i r =>
  let rest := r.input.drop r.pos
  let digits := rest.takeWhile (fun ch => loc.is_digit ch s.localized_digits)
  match rest, digits with
  | [], _ => some ⟨error.end_of_range, i, r⟩
  | _ :: _, [] => some ⟨error.invalid_scanned_value, i, r⟩
  | _ :: _, _ :: _ =>
    some ⟨error.good, digits.foldl (fun acc ch => 10 * acc + ((ch : Int) - 0x30)) 0,
      { r with pos := r.pos + digits.length }⟩

end detail
end scn

/-! ## Theorems -/

open scn scn.detail

/-! ### Bit operations as arithmetic -/

theorem and_mask_3f (x : Nat) : x &&& 0x3f = x % 64 :=
  Nat.and_pow_two_sub_one_eq_mod x 6

theorem and_mask_7ff (x : Nat) : x &&& 0x7ff = x % 2048 :=
  Nat.and_pow_two_sub_one_eq_mod x 11

theorem and_mask_fff (x : Nat) : x &&& 0xfff = x % 4096 :=
  Nat.and_pow_two_sub_one_eq_mod x 12

theorem and_mask_ffff (x : Nat) : x &&& 0xffff = x % 65536 :=
  Nat.and_pow_two_sub_one_eq_mod x 16

theorem and_mask_3ffff (x : Nat) : x &&& 0x3ffff = x % 262144 :=
  Nat.and_pow_two_sub_one_eq_mod x 18

theorem and_mask_1fffff (x : Nat) : x &&& 0x1fffff = x % 2097152 :=
  Nat.and_pow_two_sub_one_eq_mod x 21

theorem mask8_eq_mod (o : Nat) : mask8 o = o % 256 := by
  unfold mask8
  rw [Nat.and_comm]
  exact Nat.and_pow_two_sub_one_eq_mod o 8

theorem is_trail_iff (o : Nat) : is_trail o = true ↔ o % 256 / 64 = 2 := by
  simp [is_trail, mask8_eq_mod, Nat.shiftRight_eq_div_pow]

theorem is_trail_of_pattern (b : Nat) (h : b / 0x40 = 2) : is_trail b = true := by
  rw [is_trail_iff]
  omega

theorem get_sequence_length_eq (ch : Nat) :
    get_sequence_length ch =
      if ch % 256 < 128 then 1
      else if ch % 256 / 32 = 6 then 2
      else if ch % 256 / 16 = 14 then 3
      else if ch % 256 / 8 = 30 then 4
      else 0 := by
  simp [get_sequence_length, mask8_eq_mod, Nat.shiftRight_eq_div_pow]

theorem get_sequence_length_of_byte (b : Nat) (hb : b < 256) :
    get_sequence_length b = announced_length b := by
  rw [get_sequence_length_eq]
  unfold announced_length
  have e : b % 256 = b := Nat.mod_eq_of_lt hb
  rw [e]
  split_ifs <;> first | rfl | omega

theorem is_code_point_valid_iff (cp : Nat) :
    is_code_point_valid cp = true ↔ cp ≤ 0x10FFFF ∧ ¬ (0xD800 ≤ cp ∧ cp ≤ 0xDFFF) := by
  simp [is_code_point_valid, is_surrogate, code_point_max, lead_surrogate_min,
    trail_surrogate_max]
  omega

theorem is_overlong_sequence_iff (cp len : Nat) :
    is_overlong_sequence cp len = true ↔
      (cp < 0x80 ∧ len ≠ 1) ∨ (0x80 ≤ cp ∧ cp < 0x800 ∧ len ≠ 2) ∨
        (0x800 ≤ cp ∧ cp < 0x10000 ∧ len ≠ 3) := by
  unfold is_overlong_sequence
  split_ifs <;> simp <;> omega

/-! ### The decoder at any position of a sequence -/

theorem getElem?_shift (pre s : List Nat) (k : Nat) : (pre ++ s)[pre.length + k]? = s[k]? := by
  rw [List.getElem?_append_right (by omega)]
  congr 1
  omega

theorem length_shift (pre s : List Nat) (k : Nat) :
    (pre.length + k = (pre ++ s).length) ↔ k = s.length := by
  rw [List.length_append]
  omega

theorem increase_safely_shift (pre s : List Nat) (i : Nat) :
    increase_safely (pre ++ s) (pre.length + i)
      = (increase_safely s i).map (fun p => (p.1, pre.length + p.2)) := by
  unfold increase_safely
  simp only [Nat.add_assoc, length_shift, getElem?_shift]
  split_ifs with h
  · simp
  · cases s[i + 1]? with
    | none => simp
    | some b => cases ht : is_trail b <;> simp [ht]

theorem get_sequence_1_shift (pre s : List Nat) (i c : Nat) :
    get_sequence_1 (pre ++ s) (pre.length + i) c
      = (get_sequence_1 s i c).map (decoded.shift pre.length) := by
  unfold get_sequence_1
  simp only [length_shift, getElem?_shift]
  split_ifs with h
  · simp
  · cases s[i]? <;> simp [decoded.shift]

theorem get_sequence_2_shift (pre s : List Nat) (i c : Nat) :
    get_sequence_2 (pre ++ s) (pre.length + i) c
      = (get_sequence_2 s i c).map (decoded.shift pre.length) := by
  unfold get_sequence_2
  simp only [length_shift, getElem?_shift, increase_safely_shift]
  split_ifs with h
  · simp
  · cases s[i]? with
    | none => simp
    | some b0 =>
      cases hinc : increase_safely s i with
      | none => simp
      | some p =>
        obtain ⟨e, j⟩ := p
        simp only [Option.map_some', getElem?_shift]
        cases e <;> simp [error.ok, decoded.shift]
        cases s[j]? <;> simp [decoded.shift]

theorem get_sequence_3_shift (pre s : List Nat) (i c : Nat) :
    get_sequence_3 (pre ++ s) (pre.length + i) c
      = (get_sequence_3 s i c).map (decoded.shift pre.length) := by
  unfold get_sequence_3
  simp only [length_shift, getElem?_shift, increase_safely_shift]
  split_ifs with h
  · simp
  · cases s[i]? with
    | none => simp
    | some b0 =>
      cases hinc : increase_safely s i with
      | none => simp
      | some p =>
        obtain ⟨e, j⟩ := p
        simp only [Option.map_some', getElem?_shift, increase_safely_shift]
        cases e <;> simp [error.ok, decoded.shift]
        cases s[j]? with
        | none => simp
        | some b1 =>
          cases hinc2 : increase_safely s j with
          | none => simp
          | some p2 =>
            obtain ⟨e2, j2⟩ := p2
            simp only [Option.map_some', getElem?_shift]
            cases e2 <;> simp [error.ok, decoded.shift]
            cases s[j2]? <;> simp [decoded.shift]

theorem get_sequence_4_shift (pre s : List Nat) (i c : Nat) :
    get_sequence_4 (pre ++ s) (pre.length + i) c
      = (get_sequence_4 s i c).map (decoded.shift pre.length) := by
  unfold get_sequence_4
  simp only [length_shift, getElem?_shift, increase_safely_shift]
  split_ifs with h
  · simp
  · cases s[i]? with
    | none => simp
    | some b0 =>
      cases hinc : increase_safely s i with
      | none => simp
      | some p =>
        obtain ⟨e, j⟩ := p
        simp only [Option.map_some', getElem?_shift, increase_safely_shift]
        cases e <;> simp [error.ok, decoded.shift]
        cases s[j]? with
        | none => simp
        | some b1 =>
          cases hinc2 : increase_safely s j with
          | none => simp
          | some p2 =>
            obtain ⟨e2, j2⟩ := p2
            simp only [Option.map_some', getElem?_shift, increase_safely_shift]
            cases e2 <;> simp [error.ok, decoded.shift]
            cases s[j2]? with
            | none => simp
            | some b2 =>
              cases hinc3 : increase_safely s j2 with
              | none => simp
              | some p3 =>
                obtain ⟨e3, j3⟩ := p3
                simp only [Option.map_some', getElem?_shift]
                cases e3 <;> simp [error.ok, decoded.shift]
                cases s[j3]? <;> simp [decoded.shift]

theorem validate_next_shift (pre s : List Nat) (i c : Nat) :
    validate_next (pre ++ s) (pre.length + i) c
      = (validate_next s i c).map (decoded.shift pre.length) := by
  unfold validate_next
  simp only [length_shift, getElem?_shift, get_sequence_1_shift, get_sequence_2_shift,
    get_sequence_3_shift, get_sequence_4_shift]
  split_ifs with h
  · simp
  · cases s[i]? with
    | none => simp
    | some b =>
      simp only
      split_ifs with h0 h1 h2 h3 h4
      · simp [decoded.shift]
      · cases get_sequence_1 s i c with
        | none => simp
        | some d =>
          obtain ⟨e, j, v⟩ := d
          simp only [Option.map_some', decoded.shift]
          split_ifs <;> simp [decoded.shift, Nat.add_assoc]
      · cases get_sequence_2 s i c with
        | none => simp
        | some d =>
          obtain ⟨e, j, v⟩ := d
          simp only [Option.map_some', decoded.shift]
          split_ifs <;> simp [decoded.shift, Nat.add_assoc]
      · cases get_sequence_3 s i c with
        | none => simp
        | some d =>
          obtain ⟨e, j, v⟩ := d
          simp only [Option.map_some', decoded.shift]
          split_ifs <;> simp [decoded.shift, Nat.add_assoc]
      · cases get_sequence_4 s i c with
        | none => simp
        | some d =>
          obtain ⟨e, j, v⟩ := d
          simp only [Option.map_some', decoded.shift]
          split_ifs <;> simp [decoded.shift, Nat.add_assoc]
      · simp only [Option.map_some', decoded.shift]
        split_ifs <;> simp [decoded.shift, Nat.add_assoc]

/-! ### The decoder on a sequence whose bytes are all present -/

theorem validate_next_one (b0 : Nat) (rest : List Nat) (c : Nat)
    (hlen : get_sequence_length b0 = 1) :
    validate_next (b0 :: rest) 0 c = some ⟨error.good, 1, b0 % 256⟩ := by
  have hb : b0 % 256 < 128 := by
    rw [get_sequence_length_eq] at hlen
    split_ifs at hlen <;> first | assumption | omega
  have hv : is_code_point_valid (b0 % 256) = true := by
    rw [is_code_point_valid_iff]
    omega
  have ho : is_overlong_sequence (b0 % 256) 1 = false := by
    simp [is_overlong_sequence, hb]
  simp [validate_next, hlen, get_sequence_1, mask8_eq_mod, error.ok, hv, ho]

theorem validate_next_two (b0 b1 : Nat) (rest : List Nat) (c : Nat)
    (hlen : get_sequence_length b0 = 2) (h1 : is_trail b1 = true) :
    validate_next (b0 :: b1 :: rest) 0 c =
      if is_code_point_valid (b0 % 256 * 64 % 2048 + b1 % 64) = true ∧
          is_overlong_sequence (b0 % 256 * 64 % 2048 + b1 % 64) 2 = false then
        some ⟨error.good, 2, b0 % 256 * 64 % 2048 + b1 % 64⟩
      else some ⟨error.invalid_encoding, 1, b0 % 256 * 64 % 2048 + b1 % 64⟩ := by
  simp only [validate_next, hlen, get_sequence_2, increase_safely, h1]
  simp [mask8_eq_mod, and_mask_3f, and_mask_7ff, Nat.shiftLeft_eq, error.ok]
  split_ifs <;> simp_all

theorem validate_next_three (b0 b1 b2 : Nat) (rest : List Nat) (c : Nat)
    (hlen : get_sequence_length b0 = 3) (h1 : is_trail b1 = true)
    (h2 : is_trail b2 = true) :
    validate_next (b0 :: b1 :: b2 :: rest) 0 c =
      if is_code_point_valid
            (b0 % 256 * 4096 % 65536 + b1 % 256 * 64 % 4096 + b2 % 64) = true ∧
          is_overlong_sequence
            (b0 % 256 * 4096 % 65536 + b1 % 256 * 64 % 4096 + b2 % 64) 3 = false then
        some ⟨error.good, 3, b0 % 256 * 4096 % 65536 + b1 % 256 * 64 % 4096 + b2 % 64⟩
      else
        some ⟨error.invalid_encoding, 2,
          b0 % 256 * 4096 % 65536 + b1 % 256 * 64 % 4096 + b2 % 64⟩ := by
  simp only [validate_next, hlen, get_sequence_3, increase_safely, h1, h2]
  simp [mask8_eq_mod, and_mask_3f, and_mask_fff, and_mask_ffff, Nat.shiftLeft_eq,
    error.ok, h1, h2]
  split_ifs <;> simp_all

theorem validate_next_four (b0 b1 b2 b3 : Nat) (rest : List Nat) (c : Nat)
    (hlen : get_sequence_length b0 = 4) (h1 : is_trail b1 = true)
    (h2 : is_trail b2 = true) (h3 : is_trail b3 = true) :
    validate_next (b0 :: b1 :: b2 :: b3 :: rest) 0 c =
      if is_code_point_valid
            (b0 % 256 * 262144 % 2097152 + b1 % 256 * 4096 % 262144
              + b2 % 256 * 64 % 4096 + b3 % 64) = true ∧
          is_overlong_sequence
            (b0 % 256 * 262144 % 2097152 + b1 % 256 * 4096 % 262144
              + b2 % 256 * 64 % 4096 + b3 % 64) 4 = false then
        some ⟨error.good, 4, b0 % 256 * 262144 % 2097152 + b1 % 256 * 4096 % 262144
              + b2 % 256 * 64 % 4096 + b3 % 64⟩
      else
        some ⟨error.invalid_encoding, 3,
          b0 % 256 * 262144 % 2097152 + b1 % 256 * 4096 % 262144
              + b2 % 256 * 64 % 4096 + b3 % 64⟩ := by
  simp only [validate_next, hlen, get_sequence_4, increase_safely, h1, h2, h3]
  simp [mask8_eq_mod, and_mask_3f, and_mask_fff, and_mask_3ffff, and_mask_1fffff,
    Nat.shiftLeft_eq, error.ok, h1, h2, h3]
  split_ifs <;> simp_all

/-- How `parse_code_point` reports a successful `validate_next`. -/
theorem parse_code_point_of_good (s : List Nat) (b it v : Nat)
    (h : validate_next s b 0 = some ⟨error.good, it, v⟩) (c0 : Nat) :
    parse_code_point s b c0 = some (expected.value it, v) := by
  simp [parse_code_point, h, error.ok]

/-- How `parse_code_point` reports a failed `validate_next`. -/
theorem parse_code_point_of_error (s : List Nat) (b : Nat) (d : decoded)
    (h : validate_next s b 0 = some d) (he : d.err ≠ error.good) (c0 : Nat) :
    parse_code_point s b c0 = some (expected.failure d.err, c0) := by
  obtain ⟨e, it, v⟩ := d
  cases e <;> simp_all [parse_code_point, error.ok]

/-- A result of `validate_next` at the start of `s` carries over to `s`
placed behind any prefix, the iterator moved by the length of the prefix. -/
theorem validate_next_at (pre s : List Nat) (c : Nat) (d : decoded)
    (h : validate_next s 0 c = some d) :
    validate_next (pre ++ s) pre.length c = some ⟨d.err, pre.length + d.it, d.cp⟩ := by
  have key := validate_next_shift pre s 0 c
  rw [Nat.add_zero, h] at key
  rw [key]
  rfl

theorem parse_code_point_succeeds_at (pre s : List Nat) (it v : Nat)
    (h : validate_next s 0 0 = some ⟨error.good, it, v⟩) (c0 : Nat) :
    parse_code_point (pre ++ s) pre.length c0
      = some (expected.value (pre.length + it), v) :=
  parse_code_point_of_good _ _ _ _ (validate_next_at pre s 0 _ h) c0

theorem parse_code_point_fails_at (pre s : List Nat) (d : decoded)
    (h : validate_next s 0 0 = some d) (he : d.err ≠ error.good) (c0 : Nat) :
    parse_code_point (pre ++ s) pre.length c0 = some (expected.failure d.err, c0) :=
  parse_code_point_of_error _ _ _ (validate_next_at pre s 0 d h) he c0

/-- A sequence that `validate_next` rejects with `invalid_encoding` at its
start is rejected behind any prefix, by `parse_code_point` too. -/
theorem decode_fails_at (pre s : List Nat) (it v : Nat)
    (key : ∀ c, validate_next s 0 c = some ⟨error.invalid_encoding, it, v⟩) (c : Nat) :
    validate_next (pre ++ s) pre.length c
        = some ⟨error.invalid_encoding, pre.length + it, v⟩ ∧
      parse_code_point (pre ++ s) pre.length c
        = some (expected.failure error.invalid_encoding, c) :=
  ⟨validate_next_at pre s c _ (key c),
    parse_code_point_fails_at pre s _ (key 0) (by simp) c⟩

/-! ### C1: decoding the standard encoding of a scalar value -/

theorem validate_next_utf8_encode (cp : Nat) (rest : List Nat) (c : Nat)
    (hmax : cp ≤ 0x10FFFF) (hsur : ¬ (0xD800 ≤ cp ∧ cp ≤ 0xDFFF)) :
    validate_next (utf8_encode cp ++ rest) 0 c
      = some ⟨error.good, (utf8_encode cp).length, cp⟩ := by
  have hv : is_code_point_valid cp = true := by
    rw [is_code_point_valid_iff]
    exact ⟨hmax, hsur⟩
  unfold utf8_encode
  split_ifs with ha hb hc
  · have hl : get_sequence_length cp = 1 := by
      rw [get_sequence_length_eq]; split_ifs <;> omega
    have e : cp % 256 = cp := by omega
    simpa [e] using validate_next_one cp rest c hl
  · have hl : get_sequence_length (0xc0 + cp / 0x40) = 2 := by
      rw [get_sequence_length_eq]; split_ifs <;> omega
    have ht : is_trail (0x80 + cp % 0x40) = true := by
      rw [is_trail_iff]; omega
    have e : (0xc0 + cp / 0x40) % 256 * 64 % 2048 + (0x80 + cp % 0x40) % 64 = cp := by
      omega
    have ho : is_overlong_sequence cp 2 = false := by
      simp [is_overlong_sequence, ha, hb]
    have key := validate_next_two _ _ rest c hl ht
    rw [e] at key
    simpa [hv, ho] using key
  · have hl : get_sequence_length (0xe0 + cp / 0x1000) = 3 := by
      rw [get_sequence_length_eq]; split_ifs <;> omega
    have ht1 : is_trail (0x80 + cp / 0x40 % 0x40) = true := by
      rw [is_trail_iff]; omega
    have ht2 : is_trail (0x80 + cp % 0x40) = true := by
      rw [is_trail_iff]; omega
    have e : (0xe0 + cp / 0x1000) % 256 * 4096 % 65536
        + (0x80 + cp / 0x40 % 0x40) % 256 * 64 % 4096 + (0x80 + cp % 0x40) % 64 = cp := by
      omega
    have ho : is_overlong_sequence cp 3 = false := by
      simp [is_overlong_sequence, ha, hb, hc]
    have key := validate_next_three _ _ _ rest c hl ht1 ht2
    rw [e] at key
    simpa [hv, ho] using key
  · have hl : get_sequence_length (0xf0 + cp / 0x40000) = 4 := by
      rw [get_sequence_length_eq]; split_ifs <;> omega
    have ht1 : is_trail (0x80 + cp / 0x1000 % 0x40) = true := by
      rw [is_trail_iff]; omega
    have ht2 : is_trail (0x80 + cp / 0x40 % 0x40) = true := by
      rw [is_trail_iff]; omega
    have ht3 : is_trail (0x80 + cp % 0x40) = true := by
      rw [is_trail_iff]; omega
    have e : (0xf0 + cp / 0x40000) % 256 * 262144 % 2097152
        + (0x80 + cp / 0x1000 % 0x40) % 256 * 4096 % 262144
        + (0x80 + cp / 0x40 % 0x40) % 256 * 64 % 4096 + (0x80 + cp % 0x40) % 64 = cp := by
      omega
    have ho : is_overlong_sequence cp 4 = false := by
      simp [is_overlong_sequence, ha, hb, hc]
    have key := validate_next_four _ _ _ _ rest c hl ht1 ht2 ht3
    rw [e] at key
    simpa [hv, ho] using key

theorem utf8_encode_length (cp : Nat) :
    1 ≤ (utf8_encode cp).length ∧ (utf8_encode cp).length ≤ 4 := by
  unfold utf8_encode
  split_ifs <;> simp

/-- C1: for every Unicode scalar value `cp` (at most `0x10FFFF`, outside
`0xD800..0xDFFF`) and every byte sequence that holds, from the decoding
position on, the minimal UTF-8 encoding of `cp`, whatever bytes follow,
`validate_next` and `parse_code_point` succeed, yield exactly `cp`, and leave
the position advanced by exactly the byte length of the encoding, which is
1, 2, 3 or 4. -/
theorem decode_utf8_encode (cp : Nat) (pre rest : List Nat) (c : Nat)
    (hmax : cp ≤ 0x10FFFF) (hsur : ¬ (0xD800 ≤ cp ∧ cp ≤ 0xDFFF)) :
    validate_next (pre ++ (utf8_encode cp ++ rest)) pre.length c
        = some ⟨error.good, pre.length + (utf8_encode cp).length, cp⟩ ∧
      parse_code_point (pre ++ (utf8_encode cp ++ rest)) pre.length c
        = some (expected.value (pre.length + (utf8_encode cp).length), cp) ∧
      1 ≤ (utf8_encode cp).length ∧ (utf8_encode cp).length ≤ 4 :=
  ⟨validate_next_at pre _ c _ (validate_next_utf8_encode cp rest c hmax hsur),
    parse_code_point_succeeds_at pre _ _ _ (validate_next_utf8_encode cp rest 0 hmax hsur) c,
    utf8_encode_length cp⟩

/-- The euro sign `U+20AC`, behind one byte and followed by two more,
decodes to `0x20AC` with the position advanced by three. -/
theorem decode_utf8_encode_witness :
    (0x20AC ≤ 0x10FFFF ∧ ¬ (0xD800 ≤ 0x20AC ∧ 0x20AC ≤ 0xDFFF)) ∧
      (validate_next ([0x61] ++ (utf8_encode 0x20AC ++ [0x41, 0xff])) [0x61].length 7
          = some ⟨error.good, [0x61].length + (utf8_encode 0x20AC).length, 0x20AC⟩ ∧
        parse_code_point ([0x61] ++ (utf8_encode 0x20AC ++ [0x41, 0xff])) [0x61].length 7
          = some (expected.value ([0x61].length + (utf8_encode 0x20AC).length), 0x20AC) ∧
        1 ≤ (utf8_encode 0x20AC).length ∧ (utf8_encode 0x20AC).length ≤ 4) :=
  ⟨by decide, decode_utf8_encode 0x20AC [0x61] [0x41, 0xff] 7 (by decide) (by decide)⟩

/-! ### C2, C3: overlong, surrogate and out-of-range sequences -/

theorem assembled_2_eq (b0 b1 : Nat) :
    b0 % 256 * 64 % 2048 + b1 % 64 = utf8_value_2 b0 b1 := by
  unfold utf8_value_2
  omega

theorem assembled_3_eq (b0 b1 b2 : Nat) :
    b0 % 256 * 4096 % 65536 + b1 % 256 * 64 % 4096 + b2 % 64 = utf8_value_3 b0 b1 b2 := by
  unfold utf8_value_3
  omega

theorem assembled_4_eq (b0 b1 b2 b3 : Nat) :
    b0 % 256 * 262144 % 2097152 + b1 % 256 * 4096 % 262144 + b2 % 256 * 64 % 4096
      + b3 % 64 = utf8_value_4 b0 b1 b2 b3 := by
  unfold utf8_value_4
  omega

theorem get_sequence_length_of_announced (b n : Nat) (h : announced_length b = n)
    (hn : n ≠ 0) : get_sequence_length b = n := by
  have hb : b < 256 := by
    unfold announced_length at h
    split_ifs at h <;> omega
  rw [get_sequence_length_of_byte b hb, h]

/-- A complete two-byte sequence is rejected when its value is invalid or
overlong, and accepted otherwise. -/
theorem validate_next_two_pattern (b0 b1 : Nat) (rest : List Nat) (c : Nat)
    (h0 : b0 / 0x20 = 6) (h1 : b1 / 0x40 = 2) :
    validate_next (b0 :: b1 :: rest) 0 c =
      if is_code_point_valid (utf8_value_2 b0 b1) = true ∧
          is_overlong_sequence (utf8_value_2 b0 b1) 2 = false then
        some ⟨error.good, 2, utf8_value_2 b0 b1⟩
      else some ⟨error.invalid_encoding, 1, utf8_value_2 b0 b1⟩ := by
  have hl : get_sequence_length b0 = 2 := by
    rw [get_sequence_length_eq]; split_ifs <;> omega
  rw [validate_next_two b0 b1 rest c hl (is_trail_of_pattern b1 h1), assembled_2_eq]

theorem validate_next_three_pattern (b0 b1 b2 : Nat) (rest : List Nat) (c : Nat)
    (h0 : b0 / 0x10 = 0xe) (h1 : b1 / 0x40 = 2) (h2 : b2 / 0x40 = 2) :
    validate_next (b0 :: b1 :: b2 :: rest) 0 c =
      if is_code_point_valid (utf8_value_3 b0 b1 b2) = true ∧
          is_overlong_sequence (utf8_value_3 b0 b1 b2) 3 = false then
        some ⟨error.good, 3, utf8_value_3 b0 b1 b2⟩
      else some ⟨error.invalid_encoding, 2, utf8_value_3 b0 b1 b2⟩ := by
  have hl : get_sequence_length b0 = 3 := by
    rw [get_sequence_length_eq]; split_ifs <;> omega
  rw [validate_next_three b0 b1 b2 rest c hl (is_trail_of_pattern b1 h1)
    (is_trail_of_pattern b2 h2), assembled_3_eq]

theorem validate_next_four_pattern (b0 b1 b2 b3 : Nat) (rest : List Nat) (c : Nat)
    (h0 : b0 / 0x8 = 0x1e) (h1 : b1 / 0x40 = 2) (h2 : b2 / 0x40 = 2)
    (h3 : b3 / 0x40 = 2) :
    validate_next (b0 :: b1 :: b2 :: b3 :: rest) 0 c =
      if is_code_point_valid (utf8_value_4 b0 b1 b2 b3) = true ∧
          is_overlong_sequence (utf8_value_4 b0 b1 b2 b3) 4 = false then
        some ⟨error.good, 4, utf8_value_4 b0 b1 b2 b3⟩
      else some ⟨error.invalid_encoding, 3, utf8_value_4 b0 b1 b2 b3⟩ := by
  have hl : get_sequence_length b0 = 4 := by
    rw [get_sequence_length_eq]; split_ifs <;> omega
  rw [validate_next_four b0 b1 b2 b3 rest c hl (is_trail_of_pattern b1 h1)
    (is_trail_of_pattern b2 h2) (is_trail_of_pattern b3 h3), assembled_4_eq]

/-- A decoded sequence whose value is overlong for its length or not a valid
code point makes the decoder test fail. -/
theorem not_valid_and_minimal (v len : Nat)
    (h : is_code_point_valid v = false ∨ is_overlong_sequence v len = true) :
    ¬ (is_code_point_valid v = true ∧ is_overlong_sequence v len = false) := by
  rintro ⟨hv, ho⟩
  rcases h with h | h
  · rw [hv] at h; exact Bool.noConfusion h
  · rw [ho] at h; exact Bool.noConfusion h

theorem validate_next_two_rejected (b0 b1 : Nat) (rest : List Nat) (c : Nat)
    (h0 : b0 / 0x20 = 6) (h1 : b1 / 0x40 = 2)
    (hbad : is_code_point_valid (utf8_value_2 b0 b1) = false ∨
      is_overlong_sequence (utf8_value_2 b0 b1) 2 = true) :
    validate_next (b0 :: b1 :: rest) 0 c
      = some ⟨error.invalid_encoding, 1, utf8_value_2 b0 b1⟩ := by
  rw [validate_next_two_pattern b0 b1 rest c h0 h1, if_neg (not_valid_and_minimal _ _ hbad)]

theorem validate_next_three_rejected (b0 b1 b2 : Nat) (rest : List Nat) (c : Nat)
    (h0 : b0 / 0x10 = 0xe) (h1 : b1 / 0x40 = 2) (h2 : b2 / 0x40 = 2)
    (hbad : is_code_point_valid (utf8_value_3 b0 b1 b2) = false ∨
      is_overlong_sequence (utf8_value_3 b0 b1 b2) 3 = true) :
    validate_next (b0 :: b1 :: b2 :: rest) 0 c
      = some ⟨error.invalid_encoding, 2, utf8_value_3 b0 b1 b2⟩ := by
  rw [validate_next_three_pattern b0 b1 b2 rest c h0 h1 h2,
    if_neg (not_valid_and_minimal _ _ hbad)]

theorem validate_next_four_rejected (b0 b1 b2 b3 : Nat) (rest : List Nat) (c : Nat)
    (h0 : b0 / 0x8 = 0x1e) (h1 : b1 / 0x40 = 2) (h2 : b2 / 0x40 = 2) (h3 : b3 / 0x40 = 2)
    (hbad : is_code_point_valid (utf8_value_4 b0 b1 b2 b3) = false ∨
      is_overlong_sequence (utf8_value_4 b0 b1 b2 b3) 4 = true) :
    validate_next (b0 :: b1 :: b2 :: b3 :: rest) 0 c
      = some ⟨error.invalid_encoding, 3, utf8_value_4 b0 b1 b2 b3⟩ := by
  rw [validate_next_four_pattern b0 b1 b2 b3 rest c h0 h1 h2 h3,
    if_neg (not_valid_and_minimal _ _ hbad)]

theorem not_valid_of_range (v : Nat) (h : (0xD800 ≤ v ∧ v ≤ 0xDFFF) ∨ 0x10FFFF < v) :
    is_code_point_valid v = false := by
  rw [Bool.eq_false_iff, Ne, is_code_point_valid_iff]
  omega

/-- C2: a sequence whose lead byte and continuation bytes have the correct
bit patterns but which encodes its value in more bytes than the minimal
encoding needs (two bytes for a value below `0x80`, three bytes for a value
below `0x800`, four bytes for a value below `0x10000`) is rejected with
`invalid_encoding` by `validate_next` and by `parse_code_point`, at any
decoding position and whatever bytes follow. -/
theorem overlong_rejected (b0 b1 b2 b3 : Nat) (pre rest : List Nat) (c : Nat) :
    (b0 / 0x20 = 6 → b1 / 0x40 = 2 → utf8_value_2 b0 b1 < 0x80 →
        validate_next (pre ++ b0 :: b1 :: rest) pre.length c
            = some ⟨error.invalid_encoding, pre.length + 1, utf8_value_2 b0 b1⟩ ∧
          parse_code_point (pre ++ b0 :: b1 :: rest) pre.length c
            = some (expected.failure error.invalid_encoding, c)) ∧
      (b0 / 0x10 = 0xe → b1 / 0x40 = 2 → b2 / 0x40 = 2 → utf8_value_3 b0 b1 b2 < 0x800 →
        validate_next (pre ++ b0 :: b1 :: b2 :: rest) pre.length c
            = some ⟨error.invalid_encoding, pre.length + 2, utf8_value_3 b0 b1 b2⟩ ∧
          parse_code_point (pre ++ b0 :: b1 :: b2 :: rest) pre.length c
            = some (expected.failure error.invalid_encoding, c)) ∧
      (b0 / 0x8 = 0x1e → b1 / 0x40 = 2 → b2 / 0x40 = 2 → b3 / 0x40 = 2 →
        utf8_value_4 b0 b1 b2 b3 < 0x10000 →
        validate_next (pre ++ b0 :: b1 :: b2 :: b3 :: rest) pre.length c
            = some ⟨error.invalid_encoding, pre.length + 3, utf8_value_4 b0 b1 b2 b3⟩ ∧
          parse_code_point (pre ++ b0 :: b1 :: b2 :: b3 :: rest) pre.length c
            = some (expected.failure error.invalid_encoding, c)) := by
  refine ⟨?_, ?_, ?_⟩
  · intro h0 h1 hv
    refine decode_fails_at pre _ _ _ (fun c => ?_) c
    apply validate_next_two_rejected b0 b1 rest c h0 h1
    right
    rw [is_overlong_sequence_iff]
    omega
  · intro h0 h1 h2 hv
    refine decode_fails_at pre _ _ _ (fun c => ?_) c
    apply validate_next_three_rejected b0 b1 b2 rest c h0 h1 h2
    right
    rw [is_overlong_sequence_iff]
    omega
  · intro h0 h1 h2 h3 hv
    refine decode_fails_at pre _ _ _ (fun c => ?_) c
    apply validate_next_four_rejected b0 b1 b2 b3 rest c h0 h1 h2 h3
    by_cases hs : 0xD800 ≤ utf8_value_4 b0 b1 b2 b3 ∧ utf8_value_4 b0 b1 b2 b3 ≤ 0xDFFF
    · left
      exact not_valid_of_range _ (Or.inl hs)
    · right
      rw [is_overlong_sequence_iff]
      omega

/-- The overlong forms `C0 80`, `E0 80 80` and `F0 80 80 80` of `U+0000`,
each behind the byte `0x61`, are rejected. -/
theorem overlong_rejected_witness :
    (validate_next ([0x61] ++ [0xc0, 0x80]) [0x61].length 7
          = some ⟨error.invalid_encoding, [0x61].length + 1, utf8_value_2 0xc0 0x80⟩ ∧
        parse_code_point ([0x61] ++ [0xc0, 0x80]) [0x61].length 7
          = some (expected.failure error.invalid_encoding, 7)) ∧
      (validate_next ([0x61] ++ [0xe0, 0x80, 0x80]) [0x61].length 7
          = some ⟨error.invalid_encoding, [0x61].length + 2, utf8_value_3 0xe0 0x80 0x80⟩ ∧
        parse_code_point ([0x61] ++ [0xe0, 0x80, 0x80]) [0x61].length 7
          = some (expected.failure error.invalid_encoding, 7)) ∧
      (validate_next ([0x61] ++ [0xf0, 0x80, 0x80, 0x80]) [0x61].length 7
          = some ⟨error.invalid_encoding, [0x61].length + 3,
              utf8_value_4 0xf0 0x80 0x80 0x80⟩ ∧
        parse_code_point ([0x61] ++ [0xf0, 0x80, 0x80, 0x80]) [0x61].length 7
          = some (expected.failure error.invalid_encoding, 7)) :=
  ⟨(overlong_rejected 0xc0 0x80 0 0 [0x61] [] 7).1 (by decide) (by decide) (by decide),
    (overlong_rejected 0xe0 0x80 0x80 0 [0x61] [] 7).2.1 (by decide) (by decide)
      (by decide) (by decide),
    (overlong_rejected 0xf0 0x80 0x80 0x80 [0x61] [] 7).2.2 (by decide) (by decide)
      (by decide) (by decide) (by decide)⟩

/-- C3: a three-byte sequence with correct bit patterns whose value lies in
the surrogate range `0xD800..0xDFFF`, and a four-byte sequence with correct
bit patterns whose value exceeds `0x10FFFF`, are rejected with
`invalid_encoding`, at any decoding position and whatever bytes follow; and
`is_code_point_valid cp` holds exactly when `cp ≤ 0x10FFFF` and `cp` is
outside `0xD800..0xDFFF`. -/
theorem surrogate_and_out_of_range_rejected (b0 b1 b2 b3 : Nat) (pre rest : List Nat)
    (c : Nat) :
    (b0 / 0x10 = 0xe → b1 / 0x40 = 2 → b2 / 0x40 = 2 →
        0xD800 ≤ utf8_value_3 b0 b1 b2 → utf8_value_3 b0 b1 b2 ≤ 0xDFFF →
        validate_next (pre ++ b0 :: b1 :: b2 :: rest) pre.length c
            = some ⟨error.invalid_encoding, pre.length + 2, utf8_value_3 b0 b1 b2⟩ ∧
          parse_code_point (pre ++ b0 :: b1 :: b2 :: rest) pre.length c
            = some (expected.failure error.invalid_encoding, c)) ∧
      (b0 / 0x8 = 0x1e → b1 / 0x40 = 2 → b2 / 0x40 = 2 → b3 / 0x40 = 2 →
        0x10FFFF < utf8_value_4 b0 b1 b2 b3 →
        validate_next (pre ++ b0 :: b1 :: b2 :: b3 :: rest) pre.length c
            = some ⟨error.invalid_encoding, pre.length + 3, utf8_value_4 b0 b1 b2 b3⟩ ∧
          parse_code_point (pre ++ b0 :: b1 :: b2 :: b3 :: rest) pre.length c
            = some (expected.failure error.invalid_encoding, c)) ∧
      (∀ cp : Nat, is_code_point_valid cp = true ↔
        cp ≤ 0x10FFFF ∧ ¬ (0xD800 ≤ cp ∧ cp ≤ 0xDFFF)) := by
  refine ⟨?_, ?_, is_code_point_valid_iff⟩
  · intro h0 h1 h2 hlo hhi
    refine decode_fails_at pre _ _ _ (fun c => ?_) c
    exact validate_next_three_rejected b0 b1 b2 rest c h0 h1 h2
      (Or.inl (not_valid_of_range _ (Or.inl ⟨hlo, hhi⟩)))
  · intro h0 h1 h2 h3 hv
    refine decode_fails_at pre _ _ _ (fun c => ?_) c
    exact validate_next_four_rejected b0 b1 b2 b3 rest c h0 h1 h2 h3
      (Or.inl (not_valid_of_range _ (Or.inr hv)))

/-- The surrogate `U+D800` written as `ED A0 80` and the value `0x110000`
written as `F4 90 80 80`, each behind the byte `0x61`, are rejected. -/
theorem surrogate_and_out_of_range_rejected_witness :
    (validate_next ([0x61] ++ [0xed, 0xa0, 0x80, 0x41]) [0x61].length 7
          = some ⟨error.invalid_encoding, [0x61].length + 2,
              utf8_value_3 0xed 0xa0 0x80⟩ ∧
        parse_code_point ([0x61] ++ [0xed, 0xa0, 0x80, 0x41]) [0x61].length 7
          = some (expected.failure error.invalid_encoding, 7)) ∧
      (validate_next ([0x61] ++ [0xf4, 0x90, 0x80, 0x80, 0x41]) [0x61].length 7
          = some ⟨error.invalid_encoding, [0x61].length + 3,
              utf8_value_4 0xf4 0x90 0x80 0x80⟩ ∧
        parse_code_point ([0x61] ++ [0xf4, 0x90, 0x80, 0x80, 0x41]) [0x61].length 7
          = some (expected.failure error.invalid_encoding, 7)) :=
  ⟨(surrogate_and_out_of_range_rejected 0xed 0xa0 0x80 0 [0x61] [0x41] 7).1 (by decide)
      (by decide) (by decide) (by decide) (by decide),
    (surrogate_and_out_of_range_rejected 0xf4 0x90 0x80 0x80 [0x61] [0x41] 7).2.1
      (by decide) (by decide) (by decide) (by decide) (by decide)⟩

/-! ### C4: truncated sequences -/

theorem validate_next_truncated (b0 : Nat) (conts : List Nat) (c : Nat)
    (hshort : conts.length + 1 < get_sequence_length b0)
    (hcont : ∀ b ∈ conts, is_trail b = true) :
    ∃ v, validate_next (b0 :: conts) 0 c
      = some ⟨error.invalid_encoding, conts.length + 1, v⟩ := by
  have hle : get_sequence_length b0 ≤ 4 := by
    rw [get_sequence_length_eq]; split_ifs <;> omega
  match conts, hshort, hcont with
  | [], hshort, _ =>
    simp only [List.length_nil] at hshort
    have hcases : get_sequence_length b0 = 2 ∨ get_sequence_length b0 = 3 ∨
        get_sequence_length b0 = 4 := by omega
    rcases hcases with h | h | h <;>
      simp [validate_next, h, get_sequence_2, get_sequence_3, get_sequence_4,
        increase_safely, error.ok]
  | [b1], hshort, hcont =>
    simp only [List.length_cons, List.length_nil] at hshort
    have h1 : is_trail b1 = true := hcont b1 (by simp)
    have hcases : get_sequence_length b0 = 3 ∨ get_sequence_length b0 = 4 := by omega
    rcases hcases with h | h <;>
      simp [validate_next, h, get_sequence_3, get_sequence_4, increase_safely,
        error.ok, h1]
  | [b1, b2], hshort, hcont =>
    simp only [List.length_cons, List.length_nil] at hshort
    have h1 : is_trail b1 = true := hcont b1 (by simp)
    have h2 : is_trail b2 = true := hcont b2 (by simp)
    have h : get_sequence_length b0 = 4 := by omega
    simp [validate_next, h, get_sequence_4, increase_safely, error.ok, h1, h2]
  | _ :: _ :: _ :: _, hshort, _ =>
    simp only [List.length_cons] at hshort
    omega

/-- C4: for every input that holds, from the decoding position on, a lead
byte announcing a 2-, 3- or 4-byte sequence and ends before all required
continuation bytes are present, the bytes that are present being
continuation bytes, `validate_next` fails with `invalid_encoding` and leaves
the position at the end of the input, never past it; `parse_code_point`
reports the same failure. -/
theorem truncated_rejected (b0 : Nat) (pre conts : List Nat) (c : Nat)
    (hlead : 2 ≤ announced_length b0)
    (hshort : conts.length + 1 < announced_length b0)
    (hcont : ∀ b ∈ conts, b / 0x40 = 2) :
    ∃ d, validate_next (pre ++ b0 :: conts) pre.length c = some d ∧
      d.err = error.invalid_encoding ∧ d.it = (pre ++ b0 :: conts).length ∧
      d.it ≤ (pre ++ b0 :: conts).length ∧
      parse_code_point (pre ++ b0 :: conts) pre.length c
        = some (expected.failure error.invalid_encoding, c) := by
  have hl : get_sequence_length b0 = announced_length b0 :=
    get_sequence_length_of_announced b0 _ rfl (by omega)
  have hshort2 : conts.length + 1 < get_sequence_length b0 := by rw [hl]; exact hshort
  have htr : ∀ b ∈ conts, is_trail b = true :=
    fun b hb => is_trail_of_pattern b (hcont b hb)
  obtain ⟨v, hv⟩ := validate_next_truncated b0 conts c hshort2 htr
  obtain ⟨v0, hv0⟩ := validate_next_truncated b0 conts 0 hshort2 htr
  refine ⟨_, validate_next_at pre _ c _ hv, rfl, by simp, by simp, ?_⟩
  exact parse_code_point_fails_at pre _ _ hv0 (by simp) c

/-- The first two bytes `E2 82` of the three-byte euro sign, behind the byte
`0x61`: the decoder fails with `invalid_encoding` at position 3, the end of
the input. -/
theorem truncated_rejected_witness :
    ∃ d, validate_next ([0x61] ++ [0xe2, 0x82]) [0x61].length 7 = some d ∧
      d.err = error.invalid_encoding ∧ d.it = ([0x61] ++ [0xe2, 0x82]).length ∧
      d.it ≤ ([0x61] ++ [0xe2, 0x82]).length ∧
      parse_code_point ([0x61] ++ [0xe2, 0x82]) [0x61].length 7
        = some (expected.failure error.invalid_encoding, 7) :=
  truncated_rejected 0xe2 [0x61] [0x82] 7 (by decide) (by decide) (by decide)

/-! ### C5: the lead byte -/

/-- C5: on a byte, `get_sequence_length` returns 1 for `0xxxxxxx`, 2 for
`110xxxxx`, 3 for `1110xxxx`, 4 for `11110xxx` and 0 for every other byte,
which are the bytes `0x80..0xBF` and `0xF8..0xFF`; on an input whose byte at
the decoding position is in that last class `validate_next` fails at once
with `invalid_encoding`, the position and the code point untouched, and
`parse_code_point` reports the failure. -/
theorem lead_byte_classes (b : Nat) (pre rest : List Nat) (c : Nat) (hb : b < 256) :
    (b / 0x80 = 0 → get_sequence_length b = 1) ∧
      (b / 0x20 = 6 → get_sequence_length b = 2) ∧
      (b / 0x10 = 0xe → get_sequence_length b = 3) ∧
      (b / 0x8 = 0x1e → get_sequence_length b = 4) ∧
      ((¬ b / 0x80 = 0 ∧ ¬ b / 0x20 = 6 ∧ ¬ b / 0x10 = 0xe ∧ ¬ b / 0x8 = 0x1e) ↔
        ((0x80 ≤ b ∧ b ≤ 0xBF) ∨ (0xF8 ≤ b ∧ b ≤ 0xFF))) ∧
      (((0x80 ≤ b ∧ b ≤ 0xBF) ∨ (0xF8 ≤ b ∧ b ≤ 0xFF)) →
        get_sequence_length b = 0 ∧
          validate_next (pre ++ b :: rest) pre.length c
            = some ⟨error.invalid_encoding, pre.length, c⟩ ∧
          parse_code_point (pre ++ b :: rest) pre.length c
            = some (expected.failure error.invalid_encoding, c)) := by
  have e : b % 256 = b := Nat.mod_eq_of_lt hb
  refine ⟨?_, ?_, ?_, ?_, ?_, ?_⟩
  · intro h; rw [get_sequence_length_eq, e]; split_ifs <;> omega
  · intro h; rw [get_sequence_length_eq, e]; split_ifs <;> omega
  · intro h; rw [get_sequence_length_eq, e]; split_ifs <;> omega
  · intro h; rw [get_sequence_length_eq, e]; split_ifs <;> omega
  · omega
  · intro h
    have hl : get_sequence_length b = 0 := by
      rw [get_sequence_length_eq, e]; split_ifs <;> omega
    have key : ∀ c, validate_next (b :: rest) 0 c
        = some ⟨error.invalid_encoding, 0, c⟩ := by
      intro c
      simp [validate_next, hl]
    exact ⟨hl, validate_next_at pre _ c _ (key c),
      parse_code_point_fails_at pre _ _ (key 0) (by simp) c⟩

/-- The bytes `0x41`, `0xC3`, `0xE2`, `0xF0` announce 1, 2, 3, 4 bytes, and
the continuation byte `0x80` at the decoding position fails without
advancing. -/
theorem lead_byte_classes_witness :
    get_sequence_length 0x41 = 1 ∧ get_sequence_length 0xc3 = 2 ∧
      get_sequence_length 0xe2 = 3 ∧ get_sequence_length 0xf0 = 4 ∧
      (get_sequence_length 0x80 = 0 ∧
        validate_next ([0x61] ++ 0x80 :: [0x41]) [0x61].length 7
          = some ⟨error.invalid_encoding, [0x61].length, 7⟩ ∧
        parse_code_point ([0x61] ++ 0x80 :: [0x41]) [0x61].length 7
          = some (expected.failure error.invalid_encoding, 7)) :=
  ⟨(lead_byte_classes 0x41 [] [] 0 (by decide)).1 (by decide),
    (lead_byte_classes 0xc3 [] [] 0 (by decide)).2.1 (by decide),
    (lead_byte_classes 0xe2 [] [] 0 (by decide)).2.2.1 (by decide),
    (lead_byte_classes 0xf0 [] [] 0 (by decide)).2.2.2.1 (by decide),
    (lead_byte_classes 0x80 [0x61] [0x41] 7 (by decide)).2.2.2.2.2 (by decide)⟩

/-! ### The boolean scanner: the string form and the numeric form -/

theorem std_equal_iff (a b : List Nat) : std_equal a b = true ↔ a <+: b := by
  induction a generalizing b with
  | nil => simp [std_equal]
  | cons x xs ih =>
    cases b with
    | nil => simp [std_equal]
    | cons y ys => simp [std_equal, ih, List.cons_prefix_cons]

theorem read_until_space_nonempty (r : cursor) (p : Nat → Bool)
    (hne : r.pos < r.input.length) :
    read_until_space r p false =
      (error.good, (r.input.drop r.pos).takeWhile (fun c => !p c),
        { r with pos := r.pos + ((r.input.drop r.pos).takeWhile (fun c => !p c)).length }) := by
  unfold read_until_space
  have hd : r.input.drop r.pos ≠ [] := by
    simp [List.drop_eq_nil_iff]
    exact hne
  cases h : r.input.drop r.pos with
  | nil => exact absurd h hd
  | cons x xs =>
    simp only
    split <;> simp

theorem read_until_space_empty (r : cursor) (p : Nat → Bool) (k : Bool)
    (he : r.input.length ≤ r.pos) :
    read_until_space r p k = (error.end_of_range, [], r) := by
  unfold read_until_space
  have hd : r.input.drop r.pos = [] := by
    simp [List.drop_eq_nil_iff]
    exact he
  rw [hd]

theorem and_six_allow_string (fo : Nat) : (fo &&& 6) &&& bool_scanner.allow_string = 0 := by
  rw [Nat.and_assoc]
  have e : (6 : Nat) &&& bool_scanner.allow_string = 0 := by decide
  rw [e, Nat.and_zero]

theorem and_six_allow_int (fo : Nat) :
    (fo &&& 6) &&& bool_scanner.allow_int = fo &&& bool_scanner.allow_int := by
  rw [Nat.and_assoc]
  have e : (6 : Nat) &&& bool_scanner.allow_int = bool_scanner.allow_int := by decide
  rw [e]

theorem and_six_localized_digits (fo : Nat) :
    (fo &&& 6) &&& bool_scanner.localized_digits = fo &&& bool_scanner.localized_digits := by
  rw [Nat.and_assoc]
  have e : (6 : Nat) &&& bool_scanner.localized_digits = bool_scanner.localized_digits := by
    decide
  rw [e]

theorem read_until_space_word (loc : locale) (lz : Bool) (r : cursor)
    (hne : r.pos < r.input.length) :
    read_until_space r (make_is_space_predicate loc lz) false =
      (error.good, leading_word loc lz r,
        { r with pos := r.pos + (leading_word loc lz r).length }) :=
  read_until_space_nonempty r (make_is_space_predicate loc lz) hne

theorem scan_string_form (self : bool_scanner) (int_scan : integer_scan_fn) (loc : locale)
    (val : Bool) (r : cursor)
    (hs : self.format_options &&& bool_scanner.allow_string ≠ 0)
    (hne : r.pos < r.input.length) :
    bool_scanner.scan self int_scan loc val r =
      if active_falsename self loc <+: leading_word loc self.common_options.localized r then
        some ⟨error.good, false,
          { r with pos := r.pos + (leading_word loc self.common_options.localized r).length }⟩
      else if active_truename self loc <+: leading_word loc self.common_options.localized r then
        some ⟨error.good, true,
          { r with pos := r.pos + (leading_word loc self.common_options.localized r).length }⟩
      else
        bool_scanner.scan ⟨self.common_options, self.format_options &&& 6⟩ int_scan loc val r := by
  obtain ⟨⟨lz⟩, fo⟩ := self
  simp only at hs
  have hru := read_until_space_word loc lz r hne
  have hle : ∀ a b : List Nat, a <+: b → a.length ≤ b.length := fun a b h => h.length_le
  generalize leading_word loc lz r = w at hru
  simp only
  generalize hfe : active_falsename ⟨⟨lz⟩, fo⟩ loc = fn
  generalize hte : active_truename ⟨⟨lz⟩, fo⟩ loc = tn
  have hr : ({ input := r.input, pos := r.pos } : cursor) = r := rfl
  cases lz
  · simp only [active_falsename, active_truename] at hfe hte
    simp at hfe hte
    by_cases hf : fn <+: w
    · have := hle _ _ hf
      simp [bool_scanner.scan, hru, hs, hfe, hte, hf, this, std_equal_iff, error.ok]
    · by_cases ht : tn <+: w
      · have := hle _ _ ht
        simp [bool_scanner.scan, hru, hs, hfe, hte, hf, ht, this, std_equal_iff, error.ok]
      · simp [bool_scanner.scan, hru, hs, hfe, hte, hf, ht, std_equal_iff, error.ok,
          putback_n, hr, and_six_allow_string, and_six_allow_int, and_six_localized_digits]
  · simp only [active_falsename, active_truename] at hfe hte
    simp at hfe hte
    by_cases hf : fn <+: w
    · have := hle _ _ hf
      simp [bool_scanner.scan, hru, hs, hfe, hte, hf, this, std_equal_iff, error.ok]
    · by_cases ht : tn <+: w
      · have := hle _ _ ht
        simp [bool_scanner.scan, hru, hs, hfe, hte, hf, ht, this, std_equal_iff, error.ok]
      · simp [bool_scanner.scan, hru, hs, hfe, hte, hf, ht, std_equal_iff, error.ok,
          putback_n, hr, and_six_allow_string, and_six_allow_int, and_six_localized_digits]

theorem scan_string_form_empty (self : bool_scanner) (int_scan : integer_scan_fn)
    (loc : locale) (val : Bool) (r : cursor)
    (hs : self.format_options &&& bool_scanner.allow_string ≠ 0)
    (he : r.input.length ≤ r.pos) :
    bool_scanner.scan self int_scan loc val r = some ⟨error.end_of_range, val, r⟩ := by
  have hru := read_until_space_empty r
    (make_is_space_predicate loc self.common_options.localized) false he
  simp [bool_scanner.scan, hru, hs, error.ok]

theorem scan_no_form (self : bool_scanner) (int_scan : integer_scan_fn)
    (loc : locale) (val : Bool) (r : cursor)
    (hs : self.format_options &&& bool_scanner.allow_string = 0)
    (hi : self.format_options &&& bool_scanner.allow_int = 0) :
    bool_scanner.scan self int_scan loc val r
      = some ⟨error.invalid_scanned_value, val, r⟩ := by
  simp [bool_scanner.scan, hs, hi]

theorem scan_numeric_form_plain (self : bool_scanner) (int_scan : integer_scan_fn)
    (loc : locale) (val : Bool) (r : cursor)
    (hs : self.format_options &&& bool_scanner.allow_string = 0)
    (hi : self.format_options &&& bool_scanner.allow_int ≠ 0)
    (hn : self.format_options &&& bool_scanner.localized_digits = 0) :
    bool_scanner.scan self int_scan loc val r =
      match r.input[r.pos]? with
      | none => some ⟨error.end_of_range, val, r⟩
      | some ch =>
        if ch = ascii_widen '0' then some ⟨error.good, false, { r with pos := r.pos + 1 }⟩
        else if ch = ascii_widen '1' then
          some ⟨error.good, true, { r with pos := r.pos + 1 }⟩
        else some ⟨error.invalid_scanned_value, val, r⟩ := by
  cases hc : r.input[r.pos]? with
  | none => simp [bool_scanner.scan, hs, hi, hn, read_char, hc]
  | some ch =>
    simp [bool_scanner.scan, hs, hi, hn, read_char, hc, putback_n, error.ok]

theorem scan_numeric_form_localized (self : bool_scanner) (int_scan : integer_scan_fn)
    (loc : locale) (val : Bool) (r : cursor)
    (hs : self.format_options &&& bool_scanner.allow_string = 0)
    (hi : self.format_options &&& bool_scanner.allow_int ≠ 0)
    (hn : self.format_options &&& bool_scanner.localized_digits ≠ 0) :
    bool_scanner.scan self int_scan loc val r =
      match int_scan ⟨true, true, true⟩ loc 0 r with
      | none => none
      | some ⟨e, i, r1⟩ =>
        if e ≠ error.good then some ⟨e, val, r1⟩
        else if i = 0 then some ⟨error.good, false, r1⟩
        else if i = 1 then some ⟨error.good, true, r1⟩
        else some ⟨error.invalid_scanned_value, val, r1⟩ := by
  cases hc : int_scan ⟨true, true, true⟩ loc 0 r with
  | none => simp [bool_scanner.scan, hs, hi, hn, hc]
  | some d =>
    obtain ⟨e, i, r1⟩ := d
    cases e
    case good =>
      by_cases h0 : i = 0
      · simp [bool_scanner.scan, hs, hi, hn, hc, error.ok, h0]
      · by_cases h1 : i = 1
        · simp [bool_scanner.scan, hs, hi, hn, hc, error.ok, h1]
        · simp [bool_scanner.scan, hs, hi, hn, hc, error.ok, h0, h1]
    all_goals simp [bool_scanner.scan, hs, hi, hn, hc, error.ok]

/-- Without the locale-digit flag, a failed `bool_scanner::scan` leaves the
cursor where it was. -/
theorem scan_error_restores_plain (self : bool_scanner) (int_scan : integer_scan_fn)
    (loc : locale) (val : Bool) (r : cursor) (d : scanned Bool)
    (hn : self.format_options &&& bool_scanner.localized_digits = 0)
    (h : bool_scanner.scan self int_scan loc val r = some d) (he : d.err ≠ error.good) :
    d.range = r := by
  have numeric : ∀ self : bool_scanner,
      self.format_options &&& bool_scanner.localized_digits = 0 →
      self.format_options &&& bool_scanner.allow_string = 0 →
      ∀ d, bool_scanner.scan self int_scan loc val r = some d → d.err ≠ error.good →
        d.range = r := by
    intro self hn hs d h he
    by_cases hi : self.format_options &&& bool_scanner.allow_int = 0
    · rw [scan_no_form self int_scan loc val r hs hi] at h
      cases h
      rfl
    · rw [scan_numeric_form_plain self int_scan loc val r hs hi hn] at h
      cases hc : r.input[r.pos]? with
      | none =>
        rw [hc] at h
        cases h
        rfl
      | some ch =>
        rw [hc] at h
        simp only at h
        split_ifs at h <;> cases h <;> first | rfl | exact absurd rfl he
  by_cases hs : self.format_options &&& bool_scanner.allow_string = 0
  · exact numeric self hn hs d h he
  · by_cases hne : r.pos < r.input.length
    · rw [scan_string_form self int_scan loc val r hs hne] at h
      split_ifs at h
      · cases h
        exact absurd rfl he
      · cases h
        exact absurd rfl he
      · refine numeric ⟨self.common_options, self.format_options &&& 6⟩ ?_ ?_ d h he
        · rw [and_six_localized_digits]
          exact hn
        · exact and_six_allow_string _
    · rw [scan_string_form_empty self int_scan loc val r hs (by omega)] at h
      cases h
      rfl

/-- With the locale-digit flag, an integer other than 0 and 1 makes the scan
fail with the cursor where the integer scanner left it. -/
theorem scan_localized_digits_other_value (self : bool_scanner)
    (int_scan : integer_scan_fn) (loc : locale) (val : Bool) (r r1 : cursor) (i : Int)
    (hs : self.format_options &&& bool_scanner.allow_string = 0)
    (hi : self.format_options &&& bool_scanner.allow_int ≠ 0)
    (hn : self.format_options &&& bool_scanner.localized_digits ≠ 0)
    (hscan : int_scan ⟨true, true, true⟩ loc 0 r = some ⟨error.good, i, r1⟩)
    (h0 : i ≠ 0) (h1 : i ≠ 1) :
    bool_scanner.scan self int_scan loc val r
      = some ⟨error.invalid_scanned_value, val, r1⟩ := by
  rw [scan_numeric_form_localized self int_scan loc val r hs hi hn, hscan]
  simp [h0, h1]

/-! ### C6: the cursor after a failed boolean scan -/

/-- C6: a failed `bool_scanner::scan` does not always leave the cursor where
it was.  With the flags that `parse` leaves for the token `n` (both forms,
locale digits, localized) and the input `5`, the string form puts its word
back, the integer scanner then reads `5`, and the scan fails with
`invalid_scanned_value` while the cursor stays advanced by one character:
the locale-digit branch returns without the putback that the plain-digit
branch performs. -/
theorem bool_scan_localized_digit_error_advances :
    bool_scanner.scan ⟨⟨true⟩, 7⟩ decimal_integer_scan classic_locale false
        ⟨widen "5", 0⟩
      = some ⟨error.invalid_scanned_value, false, ⟨widen "5", 1⟩⟩ := by
  decide

theorem widen_true : widen "true" = [116, 114, 117, 101] := by decide
theorem widen_false : widen "false" = [102, 97, 108, 115, 101] := by decide
theorem widen_banana : widen "banana" = [98, 97, 110, 97, 110, 97] := by decide
theorem widen_zero : widen "0" = [48] := by decide
theorem widen_one : widen "1" = [49] := by decide

/-! ### C7: default flags -/

/-- C7: with default flags (both forms, not localized) and the static names
`true` and `false`, none of the characters involved being white space,
`bool_scanner::scan` yields `true` on `true` with the cursor advanced by 4,
`false` on `false` with the cursor advanced by 5, `false` on `0` and `true`
on `1` with the cursor advanced by 1, and on `banana` it fails with
`invalid_scanned_value`, value and cursor unchanged. -/
theorem bool_scan_default (int_scan : integer_scan_fn) (loc : locale) (val : Bool)
    (htrue : loc.static_truename = widen "true")
    (hfalse : loc.static_falsename = widen "false")
    (hspace : ∀ ch ∈ widen "truefalse01banana", loc.is_space ch false = false) :
    bool_scanner.scan {} int_scan loc val ⟨widen "true", 0⟩
        = some ⟨error.good, true, ⟨widen "true", 4⟩⟩ ∧
    bool_scanner.scan {} int_scan loc val ⟨widen "false", 0⟩
        = some ⟨error.good, false, ⟨widen "false", 5⟩⟩ ∧
    bool_scanner.scan {} int_scan loc val ⟨widen "0", 0⟩
        = some ⟨error.good, false, ⟨widen "0", 1⟩⟩ ∧
    bool_scanner.scan {} int_scan loc val ⟨widen "1", 0⟩
        = some ⟨error.good, true, ⟨widen "1", 1⟩⟩ ∧
    bool_scanner.scan {} int_scan loc val ⟨widen "banana", 0⟩
        = some ⟨error.invalid_scanned_value, val, ⟨widen "banana", 0⟩⟩ := by
  have s116 := hspace 116 (by decide)
  have s114 := hspace 114 (by decide)
  have s117 := hspace 117 (by decide)
  have s101 := hspace 101 (by decide)
  have s102 := hspace 102 (by decide)
  have s97 := hspace 97 (by decide)
  have s108 := hspace 108 (by decide)
  have s115 := hspace 115 (by decide)
  have s48 := hspace 48 (by decide)
  have s49 := hspace 49 (by decide)
  have s98 := hspace 98 (by decide)
  have s110 := hspace 110 (by decide)
  have h34 : (3 : Nat) &&& 4 = 0 := by decide
  rw [widen_true] at htrue
  rw [widen_false] at hfalse
  simp only [widen_true, widen_false, widen_banana, widen_zero, widen_one]
  refine ⟨?_, ?_, ?_, ?_, ?_⟩ <;>
    simp [bool_scanner.scan, bool_scanner.allow_string, bool_scanner.allow_int,
      bool_scanner.localized_digits, read_until_space, make_is_space_predicate,
      htrue, hfalse, List.takeWhile, std_equal, putback_n, read_char, error.ok,
      s116, s114, s117, s101, s102, s97, s108, s115, s48, s49, s98, s110, ascii_widen, h34]

/-- The worked-example locale satisfies the assumptions of the default-flag
scan, whatever integer scanner is supplied. -/
theorem bool_scan_default_witness :
    bool_scanner.scan {} decimal_integer_scan classic_locale true ⟨widen "true", 0⟩
        = some ⟨error.good, true, ⟨widen "true", 4⟩⟩ ∧
    bool_scanner.scan {} decimal_integer_scan classic_locale true ⟨widen "false", 0⟩
        = some ⟨error.good, false, ⟨widen "false", 5⟩⟩ ∧
    bool_scanner.scan {} decimal_integer_scan classic_locale true ⟨widen "0", 0⟩
        = some ⟨error.good, false, ⟨widen "0", 1⟩⟩ ∧
    bool_scanner.scan {} decimal_integer_scan classic_locale true ⟨widen "1", 0⟩
        = some ⟨error.good, true, ⟨widen "1", 1⟩⟩ ∧
    bool_scanner.scan {} decimal_integer_scan classic_locale true ⟨widen "banana", 0⟩
        = some ⟨error.invalid_scanned_value, true, ⟨widen "banana", 0⟩⟩ :=
  bool_scan_default decimal_integer_scan classic_locale true rfl rfl (by decide)

/-! ### C8: numeric form only -/

/-- C8: with only the numeric form allowed and no locale-digit flag,
`bool_scanner::scan` reads exactly one character: `0` yields `false` and `1`
yields `true` with the cursor advanced by one; any other first character
makes it fail with `invalid_scanned_value` with the cursor back at its
starting position.  The outcome is the same for every locale: the string
form is not attempted. -/
theorem bool_scan_numeric_only (self : bool_scanner) (int_scan : integer_scan_fn)
    (loc : locale) (val : Bool) (r : cursor) (ch : Nat)
    (hs : self.format_options &&& bool_scanner.allow_string = 0)
    (hi : self.format_options &&& bool_scanner.allow_int ≠ 0)
    (hn : self.format_options &&& bool_scanner.localized_digits = 0)
    (hc : r.input[r.pos]? = some ch) :
    (ch = ascii_widen '0' →
        bool_scanner.scan self int_scan loc val r
          = some ⟨error.good, false, { r with pos := r.pos + 1 }⟩) ∧
      (ch = ascii_widen '1' →
        bool_scanner.scan self int_scan loc val r
          = some ⟨error.good, true, { r with pos := r.pos + 1 }⟩) ∧
      (ch ≠ ascii_widen '0' → ch ≠ ascii_widen '1' →
        bool_scanner.scan self int_scan loc val r
          = some ⟨error.invalid_scanned_value, val, r⟩) ∧
      (∀ loc2 : locale, bool_scanner.scan self int_scan loc2 val r
          = bool_scanner.scan self int_scan loc val r) := by
  have key : ∀ l : locale, bool_scanner.scan self int_scan l val r =
      if ch = ascii_widen '0' then some ⟨error.good, false, { r with pos := r.pos + 1 }⟩
      else if ch = ascii_widen '1' then
        some ⟨error.good, true, { r with pos := r.pos + 1 }⟩
      else some ⟨error.invalid_scanned_value, val, r⟩ := by
    intro l
    rw [scan_numeric_form_plain self int_scan l val r hs hi hn, hc]
  refine ⟨?_, ?_, ?_, ?_⟩
  · intro h
    rw [key loc, if_pos h]
  · intro h
    have h0 : ch ≠ ascii_widen '0' := by rw [h]; decide
    rw [key loc, if_neg h0, if_pos h]
  · intro h0 h1
    rw [key loc, if_neg h0, if_neg h1]
  · intro loc2
    rw [key loc2, key loc]

/-- With the flag `i` alone, the input `true` fails with
`invalid_scanned_value` and the cursor at its starting position. -/
theorem bool_scan_numeric_only_witness :
    bool_scanner.scan ⟨⟨false⟩, bool_scanner.allow_int⟩ decimal_integer_scan
        classic_locale false ⟨widen "true", 0⟩
      = some ⟨error.invalid_scanned_value, false, ⟨widen "true", 0⟩⟩ :=
  (bool_scan_numeric_only ⟨⟨false⟩, bool_scanner.allow_int⟩ decimal_integer_scan
    classic_locale false ⟨widen "true", 0⟩ (ascii_widen 't') (by decide) (by decide)
    (by decide) (by decide)).2.2.1 (by decide) (by decide)

/-! ### C9: string form only -/

/-- C9: with only the string form allowed, on every non-empty input whose
leading word has neither the active false-name nor the active true-name as a
prefix, `bool_scanner::scan` fails with `invalid_scanned_value` with every
character put back: value and cursor are as before the call.  The outcome
does not depend on the integer scanner: the numeric form is not attempted. -/
theorem bool_scan_string_only_no_match (self : bool_scanner) (int_scan : integer_scan_fn)
    (loc : locale) (val : Bool) (r : cursor)
    (hs : self.format_options &&& bool_scanner.allow_string ≠ 0)
    (hi : self.format_options &&& bool_scanner.allow_int = 0)
    (hne : r.pos < r.input.length)
    (hf : ¬ active_falsename self loc <+: leading_word loc self.common_options.localized r)
    (ht : ¬ active_truename self loc <+: leading_word loc self.common_options.localized r) :
    bool_scanner.scan self int_scan loc val r
      = some ⟨error.invalid_scanned_value, val, r⟩ := by
  rw [scan_string_form self int_scan loc val r hs hne, if_neg hf, if_neg ht]
  apply scan_no_form
  · exact and_six_allow_string _
  · rw [and_six_allow_int]
    exact hi

/-- With the flag `s` alone, the input `0` fails with
`invalid_scanned_value` and the cursor at its starting position. -/
theorem bool_scan_string_only_no_match_witness :
    bool_scanner.scan ⟨⟨false⟩, bool_scanner.allow_string⟩ decimal_integer_scan
        classic_locale false ⟨widen "0", 0⟩
      = some ⟨error.invalid_scanned_value, false, ⟨widen "0", 0⟩⟩ :=
  bool_scan_string_only_no_match ⟨⟨false⟩, bool_scanner.allow_string⟩
    decimal_integer_scan classic_locale false ⟨widen "0", 0⟩ (by decide) (by decide)
    (by decide) (by decide) (by decide)

/-! ### C10: the flags after `parse` -/

/-- The shared parser on a well-delimited token, with the three option
characters of the boolean scanner: if it succeeds, each flag is set exactly
when it was set before or its character occurs in the token, the shared
`localized` option likewise for `L`, and the remaining text starts at the
closing delimiter. -/
theorem parse_common_bool_options (token rest : List Nat)
    (hbr : ascii_widen '}' ∉ token) :
    ∀ (co : common_options_type) (f0 f1 f2 : Bool),
      (parse_common co (token ++ ascii_widen '}' :: rest)
          [ascii_widen 's', ascii_widen 'i', ascii_widen 'n'] [f0, f1, f2]).1 = error.good →
      parse_common co (token ++ ascii_widen '}' :: rest)
          [ascii_widen 's', ascii_widen 'i', ascii_widen 'n'] [f0, f1, f2]
        = (error.good, ⟨co.localized || decide (ascii_widen 'L' ∈ token)⟩,
            ascii_widen '}' :: rest,
            [f0 || decide (ascii_widen 's' ∈ token), f1 || decide (ascii_widen 'i' ∈ token),
              f2 || decide (ascii_widen 'n' ∈ token)]) := by
  induction token with
  | nil =>
    intro co f0 f1 f2 _
    simp [parse_common]
  | cons ch t ih =>
    intro co f0 f1 f2 hgood
    have hch : ch ≠ ascii_widen '}' := by
      intro h
      exact hbr (by simp [h])
    have ht : ascii_widen '}' ∉ t := by
      intro h
      exact hbr (by simp [h])
    have hs : ascii_widen 's' = 115 := by decide
    have hi : ascii_widen 'i' = 105 := by decide
    have hn : ascii_widen 'n' = 110 := by decide
    have hL : ascii_widen 'L' = 76 := by decide
    have hb : ascii_widen '}' = 125 := by decide
    rw [hs, hi, hn, hb] at ih hgood
    rw [hL] at ih
    rw [hb] at hch
    rw [hs, hi, hn, hL, hb]
    by_cases c0 : ch = 115
    · subst c0
      have key := ih ht co true f1 f2
      simp [parse_common, List.indexOf_cons, hb, hL] at key hgood ⊢
      exact key hgood
    · by_cases c1 : ch = 105
      · subst c1
        have key := ih ht co f0 true f2
        simp [parse_common, List.indexOf_cons, hb, hL] at key hgood ⊢
        exact key hgood
      · by_cases c2 : ch = 110
        · subst c2
          have key := ih ht co f0 f1 true
          simp [parse_common, List.indexOf_cons, hb, hL] at key hgood ⊢
          exact key hgood
        · by_cases c3 : ch = 76
          · subst c3
            have key := ih ht ⟨true⟩ f0 f1 f2
            simp [parse_common, List.indexOf_cons, hb, hL] at key hgood ⊢
            exact key hgood
          · exfalso
            have e0 : (115 = ch) = False := by simp; omega
            have e1 : (105 = ch) = False := by simp; omega
            have e2 : (110 = ch) = False := by simp; omega
            simp [parse_common, List.indexOf_cons, hb, hL, hch, c0, c1, c2, c3, e0, e1, e2]
              at hgood

theorem parse_of_parse_common_good (self : bool_scanner) (pctx : List Nat)
    (co : common_options_type) (pctx2 : List Nat) (f0 f1 f2 : Bool)
    (h : parse_common self.common_options pctx
        [ascii_widen 's', ascii_widen 'i', ascii_widen 'n'] [false, false, false]
      = (error.good, co, pctx2, [f0, f1, f2])) :
    bool_scanner.parse self pctx =
      (error.good,
        ⟨⟨co.localized || f2⟩,
          (((if !f0 && !f1 then bool_scanner.allow_string ||| bool_scanner.allow_int else 0)
            ||| (if f0 then bool_scanner.allow_string else 0))
            ||| (if f1 then bool_scanner.allow_int else 0))
            ||| (if f2 then bool_scanner.localized_digits else 0)⟩,
        pctx2) := by
  cases f0 <;> cases f1 <;> cases f2 <;>
    simp [bool_scanner.parse, h, error.ok, Id.run, bool_scanner.allow_string,
      bool_scanner.allow_int, bool_scanner.localized_digits]

theorem parse_error_of_parse_common_error (self : bool_scanner) (pctx : List Nat)
    (h : (parse_common self.common_options pctx
        [ascii_widen 's', ascii_widen 'i', ascii_widen 'n'] [false, false, false]).1
      ≠ error.good) :
    (bool_scanner.parse self pctx).1 ≠ error.good := by
  generalize hp : parse_common self.common_options pctx
    [ascii_widen 's', ascii_widen 'i', ascii_widen 'n'] [false, false, false] = res at h
  obtain ⟨e, co, p2, fl⟩ := res
  cases e <;> simp_all [bool_scanner.parse, error.ok, Id.run]

/-- The scanner `parse` leaves after a successful parse of a well-delimited
token. -/
theorem parse_result_of_good (self : bool_scanner) (token rest : List Nat)
    (self2 : bool_scanner) (pctx2 : List Nat)
    (hbr : ascii_widen '}' ∉ token)
    (hok : bool_scanner.parse self (token ++ ascii_widen '}' :: rest)
      = (error.good, self2, pctx2)) :
    self2 =
      ⟨⟨(self.common_options.localized || decide (ascii_widen 'L' ∈ token))
          || decide (ascii_widen 'n' ∈ token)⟩,
        (((if !decide (ascii_widen 's' ∈ token) && !decide (ascii_widen 'i' ∈ token)
              then bool_scanner.allow_string ||| bool_scanner.allow_int else 0)
            ||| (if decide (ascii_widen 's' ∈ token) then bool_scanner.allow_string else 0))
            ||| (if decide (ascii_widen 'i' ∈ token) then bool_scanner.allow_int else 0))
            ||| (if decide (ascii_widen 'n' ∈ token) then bool_scanner.localized_digits
              else 0)⟩ := by
  by_cases hg : (parse_common self.common_options (token ++ ascii_widen '}' :: rest)
      [ascii_widen 's', ascii_widen 'i', ascii_widen 'n'] [false, false, false]).1
      = error.good
  · have hpc := parse_common_bool_options token rest hbr self.common_options false false
      false hg
    simp only [Bool.false_or] at hpc
    have hp := parse_of_parse_common_good self _ _ _ _ _ _ hpc
    rw [hp] at hok
    simp only [Prod.mk.injEq] at hok
    exact hok.2.1.symm
  · have hne := parse_error_of_parse_common_error self _ hg
    rw [hok] at hne
    exact absurd rfl hne

theorem parse_token_i (self : bool_scanner) :
    bool_scanner.parse self (widen "i\x7d")
      = (error.good, ⟨self.common_options, bool_scanner.allow_int⟩, widen "\x7d") := by
  have hw : widen "i\x7d" = [105, 125] := by decide
  have hw2 : widen "\x7d" = [125] := by decide
  rw [hw, hw2]
  simp [bool_scanner.parse, parse_common, List.indexOf_cons, ascii_widen, error.ok, Id.run,
    bool_scanner.allow_int]

theorem parse_token_s (self : bool_scanner) :
    bool_scanner.parse self (widen "s\x7d")
      = (error.good, ⟨self.common_options, bool_scanner.allow_string⟩, widen "\x7d") := by
  have hw : widen "s\x7d" = [115, 125] := by decide
  have hw2 : widen "\x7d" = [125] := by decide
  rw [hw, hw2]
  simp [bool_scanner.parse, parse_common, List.indexOf_cons, ascii_widen, error.ok, Id.run,
    bool_scanner.allow_string]

theorem parse_token_si (self : bool_scanner) :
    bool_scanner.parse self (widen "si\x7d")
      = (error.good,
          ⟨self.common_options, bool_scanner.allow_string ||| bool_scanner.allow_int⟩,
          widen "\x7d") := by
  have hw : widen "si\x7d" = [115, 105, 125] := by decide
  have hw2 : widen "\x7d" = [125] := by decide
  rw [hw, hw2]
  simp [bool_scanner.parse, parse_common, List.indexOf_cons, ascii_widen, error.ok, Id.run,
    bool_scanner.allow_string, bool_scanner.allow_int]

theorem parse_token_empty (self : bool_scanner) :
    bool_scanner.parse self (widen "\x7d")
      = (error.good,
          ⟨self.common_options, bool_scanner.allow_string ||| bool_scanner.allow_int⟩,
          widen "\x7d") := by
  have hw2 : widen "\x7d" = [125] := by decide
  rw [hw2]
  simp [bool_scanner.parse, parse_common, List.indexOf_cons, ascii_widen, error.ok, Id.run,
    bool_scanner.allow_string, bool_scanner.allow_int]

theorem parse_token_n (self : bool_scanner) :
    bool_scanner.parse self (widen "n\x7d")
      = (error.good,
          ⟨⟨true⟩, (bool_scanner.allow_string ||| bool_scanner.allow_int)
            ||| bool_scanner.localized_digits⟩,
          widen "\x7d") := by
  have hw : widen "n\x7d" = [110, 125] := by decide
  have hw2 : widen "\x7d" = [125] := by decide
  rw [hw, hw2]
  simp [bool_scanner.parse, parse_common, List.indexOf_cons, ascii_widen, error.ok, Id.run,
    bool_scanner.allow_string, bool_scanner.allow_int, bool_scanner.localized_digits]

/-- C10: after a successful `bool_scanner::parse` of a token, the string form
is allowed iff `s` was given or neither `s` nor `i` was given, the numeric
form is allowed iff `i` was given or neither was given, `localized_digits`
is set iff `n` was given, and `n` turns on the shared `localized` option.
So the token `i` allows only the numeric form, the token `s` only the string
form, and the token `si` leaves the same scanner as the empty token, with
the flags of a default-constructed scanner. -/
theorem bool_parse_flags (self : bool_scanner) (token rest : List Nat)
    (self2 : bool_scanner) (pctx2 : List Nat)
    (hbr : ascii_widen '}' ∉ token)
    (hok : bool_scanner.parse self (token ++ ascii_widen '}' :: rest)
      = (error.good, self2, pctx2)) :
    (self2.format_options &&& bool_scanner.allow_string ≠ 0 ↔
        (ascii_widen 's' ∈ token ∨
          (ascii_widen 's' ∉ token ∧ ascii_widen 'i' ∉ token))) ∧
      (self2.format_options &&& bool_scanner.allow_int ≠ 0 ↔
        (ascii_widen 'i' ∈ token ∨
          (ascii_widen 's' ∉ token ∧ ascii_widen 'i' ∉ token))) ∧
      (self2.format_options &&& bool_scanner.localized_digits ≠ 0 ↔
        ascii_widen 'n' ∈ token) ∧
      (ascii_widen 'n' ∈ token → self2.common_options.localized = true) ∧
      bool_scanner.parse self (widen "i\x7d")
        = (error.good, ⟨self.common_options, bool_scanner.allow_int⟩, widen "\x7d") ∧
      bool_scanner.parse self (widen "s\x7d")
        = (error.good, ⟨self.common_options, bool_scanner.allow_string⟩, widen "\x7d") ∧
      bool_scanner.parse self (widen "si\x7d")
        = (error.good,
            ⟨self.common_options, bool_scanner.allow_string ||| bool_scanner.allow_int⟩,
            widen "\x7d") ∧
      bool_scanner.parse self (widen "si\x7d") = bool_scanner.parse self (widen "\x7d") ∧
      ({} : bool_scanner).format_options
        = bool_scanner.allow_string ||| bool_scanner.allow_int ∧
      bool_scanner.parse self (widen "n\x7d")
        = (error.good,
            ⟨⟨true⟩, (bool_scanner.allow_string ||| bool_scanner.allow_int)
              ||| bool_scanner.localized_digits⟩,
            widen "\x7d") := by
  have h2 := parse_result_of_good self token rest self2 pctx2 hbr hok
  refine ⟨?_, ?_, ?_, ?_, ?_, ?_, ?_, ?_, ?_, ?_⟩
  · rw [h2]
    by_cases hs : ascii_widen 's' ∈ token <;> by_cases hi : ascii_widen 'i' ∈ token <;>
      by_cases hn : ascii_widen 'n' ∈ token <;> simp [hs, hi, hn] <;> decide
  · rw [h2]
    by_cases hs : ascii_widen 's' ∈ token <;> by_cases hi : ascii_widen 'i' ∈ token <;>
      by_cases hn : ascii_widen 'n' ∈ token <;> simp [hs, hi, hn] <;> decide
  · rw [h2]
    by_cases hs : ascii_widen 's' ∈ token <;> by_cases hi : ascii_widen 'i' ∈ token <;>
      by_cases hn : ascii_widen 'n' ∈ token <;> simp [hs, hi, hn] <;> decide
  · intro hn
    rw [h2]
    simp [hn]
  · exact parse_token_i self
  · exact parse_token_s self
  · exact parse_token_si self
  · rw [parse_token_si, parse_token_empty]
  · rfl
  · exact parse_token_n self

/-- The token `in`: parsing succeeds, the numeric form and the locale digits
are allowed, the string form is not, and `localized` is on. -/
theorem bool_parse_flags_witness :
    bool_scanner.parse {} (widen "in" ++ ascii_widen '}' :: [])
        = (error.good, ⟨⟨true⟩, 6⟩, widen "\x7d") ∧
      ¬ ((6 : Nat) &&& bool_scanner.allow_string ≠ 0) ∧
      (6 : Nat) &&& bool_scanner.allow_int ≠ 0 ∧
      (6 : Nat) &&& bool_scanner.localized_digits ≠ 0 :=
  have h := bool_parse_flags {} (widen "in") [] ⟨⟨true⟩, 6⟩ (widen "\x7d") (by decide)
    (by decide)
  ⟨by decide, fun hs => absurd (h.1.mp hs) (by decide), h.2.1.mpr (by decide),
    h.2.2.1.mpr (by decide)⟩

/-! ### C11: the numeric form with the digits of a locale -/

/-- C11: when the numeric form is reached with the locale-digit flag set,
either because the string form is not allowed or because its word matched
no name and was put back, `bool_scanner::scan` calls the integer scanner
configured as localized, unsigned-only and with localized digits, on the
cursor as it was at the start of the call and with `i` zero-initialised.
Whatever that call returns decides the outcome: an error is returned
unchanged, the value 0 yields `false`, the value 1 yields `true`, and any
other value makes the scan fail with `invalid_scanned_value`; the cursor is
the one the integer scanner left. -/
theorem bool_scan_localized_digits (self : bool_scanner) (int_scan : integer_scan_fn)
    (loc : locale) (val : Bool) (r r1 : cursor) (e : error) (i : Int)
    (hi : self.format_options &&& bool_scanner.allow_int ≠ 0)
    (hn : self.format_options &&& bool_scanner.localized_digits ≠ 0)
    (hreach : self.format_options &&& bool_scanner.allow_string = 0 ∨
      (r.pos < r.input.length ∧
        ¬ active_falsename self loc <+: leading_word loc self.common_options.localized r ∧
        ¬ active_truename self loc <+: leading_word loc self.common_options.localized r))
    (hscan : int_scan { localized := true, only_unsigned := true, localized_digits := true }
      loc 0 r = some ⟨e, i, r1⟩) :
    (e ≠ error.good → bool_scanner.scan self int_scan loc val r = some ⟨e, val, r1⟩) ∧
      (e = error.good → i = 0 →
        bool_scanner.scan self int_scan loc val r = some ⟨error.good, false, r1⟩) ∧
      (e = error.good → i = 1 →
        bool_scanner.scan self int_scan loc val r = some ⟨error.good, true, r1⟩) ∧
      (e = error.good → i ≠ 0 → i ≠ 1 →
        bool_scanner.scan self int_scan loc val r
          = some ⟨error.invalid_scanned_value, val, r1⟩) := by
  have key : bool_scanner.scan self int_scan loc val r =
      if e ≠ error.good then some ⟨e, val, r1⟩
      else if i = 0 then some ⟨error.good, false, r1⟩
      else if i = 1 then some ⟨error.good, true, r1⟩
      else some ⟨error.invalid_scanned_value, val, r1⟩ := by
    by_cases hs : self.format_options &&& bool_scanner.allow_string = 0
    · rw [scan_numeric_form_localized self int_scan loc val r hs hi hn, hscan]
    · rcases hreach with h | ⟨hne, hf, ht⟩
      · exact absurd h hs
      · rw [scan_string_form self int_scan loc val r hs hne, if_neg hf, if_neg ht,
          scan_numeric_form_localized ⟨self.common_options, self.format_options &&& 6⟩
            int_scan loc val r (and_six_allow_string _)
            (by rw [and_six_allow_int]; exact hi)
            (by rw [and_six_localized_digits]; exact hn),
          hscan]
  refine ⟨?_, ?_, ?_, ?_⟩
  · intro he
    rw [key, if_pos he]
  · intro he h0
    rw [key, if_neg (by simp [he]), if_pos h0]
  · intro he h1
    have h0 : i ≠ 0 := by rw [h1]; decide
    rw [key, if_neg (by simp [he]), if_neg h0, if_pos h1]
  · intro he h0 h1
    rw [key, if_neg (by simp [he]), if_neg h0, if_neg h1]

/-- With the flags of the token `in` and the input `1`, the integer scanner
reads the value 1 and the scan yields `true`. -/
theorem bool_scan_localized_digits_witness :
    bool_scanner.scan ⟨⟨true⟩, 6⟩ decimal_integer_scan classic_locale false
        ⟨widen "1", 0⟩
      = some ⟨error.good, true, ⟨widen "1", 1⟩⟩ :=
  (bool_scan_localized_digits ⟨⟨true⟩, 6⟩ decimal_integer_scan classic_locale false
    ⟨widen "1", 0⟩ ⟨widen "1", 1⟩ error.good 1 (by decide) (by decide)
    (Or.inl (by decide)) (by decide)).2.2.1 rfl rfl

/-! ### C12 to C15: the buffer scanner -/

theorem memcpy_all (dst src : List Nat) (h : src.length = dst.length) :
    memcpy dst src src.length = src := by
  simp [memcpy, h]

theorem memcpy_all_dst (dst src : List Nat) (h : src.length = dst.length) :
    memcpy dst src dst.length = src := by
  rw [← h]
  exact memcpy_all dst src h

theorem read_zero_copy_full (r : cursor) (n : Nat) (hn : 0 < n)
    (havail : r.pos + n ≤ r.input.length) :
    read_zero_copy true r n
      = (expected.value ((r.input.drop r.pos).take n), { r with pos := r.pos + n }) := by
  unfold read_zero_copy
  cases h : r.input.drop r.pos with
  | nil =>
    have hl : (r.input.drop r.pos).length = 0 := by rw [h]; rfl
    rw [List.length_drop] at hl
    omega
  | cons x xs =>
    have hl : (r.input.drop r.pos).length = (x :: xs).length := by rw [h]
    rw [List.length_drop] at hl
    have hle : n ≤ xs.length + 1 := by
      simp only [List.length_cons] at hl
      omega
    simp [hle]

theorem read_into_full (r : cursor) (n : Nat) (havail : r.pos + n ≤ r.input.length) :
    read_into r n
      = (error.good, (r.input.drop r.pos).take n, { r with pos := r.pos + n }) := by
  unfold read_into
  have hle : n ≤ r.input.length - r.pos := by omega
  simp [hle]

/-- C12: for every destination of size `N > 0` and every input holding at
least `N` characters from the cursor on, `buffer_scanner::scan` succeeds,
the destination holds the first `N` of those characters in order, and the
cursor is advanced by exactly `N`; this holds on the zero-copy path
(contiguous source) and on the copying fallback path alike. -/
theorem buffer_scan_full (contiguous : Bool) (val : List Nat) (r : cursor)
    (hN : 0 < val.length) (havail : r.pos + val.length ≤ r.input.length) :
    buffer_scanner.scan (read_zero_copy contiguous) read_into val r
      = ⟨error.good, (r.input.drop r.pos).take val.length,
          { r with pos := r.pos + val.length }⟩ := by
  have hlen : ((r.input.drop r.pos).take val.length).length = val.length := by
    rw [List.length_take, List.length_drop]
    omega
  have hN0 : val.length ≠ 0 := by omega
  have hmin : min val.length (r.input.length - r.pos) = val.length := by omega
  cases contiguous
  · have hz : read_zero_copy false r val.length = (expected.value [], r) := by
      simp [read_zero_copy]
    have hm : memcpy (List.replicate val.length 0)
        ((r.input.drop r.pos).take val.length)
        ((r.input.drop r.pos).take val.length).length
        = (r.input.drop r.pos).take val.length :=
      memcpy_all _ _ (by rw [hlen, List.length_replicate])
    simp only [buffer_scanner.scan, hz, read_into_full r val.length havail, hm]
    simp [hN0, error.ok, Id.run, hmin, memcpy_all_dst _ _ hlen]
  · simp only [buffer_scanner.scan, read_zero_copy_full r val.length hN havail]
    simp [hN0, hlen, Id.run, hmin, memcpy_all_dst _ _ hlen]

/-- A destination of five characters is filled from the input `hello!` on
either path, the cursor advancing by five. -/
theorem buffer_scan_full_witness :
    buffer_scanner.scan (read_zero_copy true) read_into [0, 0, 0, 0, 0]
        ⟨widen "hello!", 0⟩
      = ⟨error.good, ((widen "hello!").drop 0).take 5, ⟨widen "hello!", 0 + 5⟩⟩ :=
  buffer_scan_full true [0, 0, 0, 0, 0] ⟨widen "hello!", 0⟩ (by decide) (by decide)

/-- C14: whenever `buffer_scanner::scan` returns an error, be it a zero-copy
read error, a short zero-copy read or a failed `read_into` on the copying
path, the destination holds exactly the contents it had before the call.
This holds whatever the two reads on the cursor do. -/
theorem buffer_scan_error_keeps_destination (rzc : read_zero_copy_fn)
    (rinto : read_into_fn) (val : List Nat) (r : cursor)
    (he : (buffer_scanner.scan rzc rinto val r).err ≠ error.good) :
    (buffer_scanner.scan rzc rinto val r).val = val := by
  unfold buffer_scanner.scan at he ⊢
  simp only [Id.run] at he ⊢
  by_cases h0 : val.length = 0
  · simp [h0] at he
  · cases hz : rzc r val.length with
    | mk s r1 =>
      cases s with
      | failure e => simp [h0, hz]
      | value sv =>
        by_cases hs0 : sv.length = 0
        · cases hi : rinto r1 val.length with
          | mk e rest =>
            obtain ⟨written, r2⟩ := rest
            cases e <;> simp_all [error.ok]
        · by_cases hs1 : sv.length = val.length
          · simp [h0, hz, hs0, hs1] at he
          · simp [h0, hz, hs0, hs1]

/-- The copying path on the input `abc` with a destination of five
characters fails, and the destination keeps its contents. -/
theorem buffer_scan_error_keeps_destination_witness :
    (buffer_scanner.scan (read_zero_copy false) read_into [9, 9, 9, 9, 9]
        ⟨widen "abc", 0⟩).val = [9, 9, 9, 9, 9] :=
  buffer_scan_error_keeps_destination (read_zero_copy false) read_into [9, 9, 9, 9, 9]
    ⟨widen "abc", 0⟩ (by decide)

/-- C15: for a destination of size 0, `buffer_scanner::scan` succeeds for
every input, the empty one included, and leaves the cursor unchanged; the
outcome is the same whatever the two reads on the cursor would do: no read
is performed. -/
theorem buffer_scan_empty_destination (rzc : read_zero_copy_fn) (rinto : read_into_fn)
    (r : cursor) :
    buffer_scanner.scan rzc rinto [] r = ⟨error.good, [], r⟩ := by
  simp [buffer_scanner.scan, Id.run]

/-! ### C16: the character scanner -/

/-- C16: for every non-empty input `char_scanner::scan` returns the first
character of the input, whichever character it is (no locale is consulted
and `skip_preceding_whitespace()` is false, so white space is returned like
any other character), and advances the cursor by exactly one character; on
empty input it fails with `end_of_range`, the value and the cursor being as
before the call. -/
theorem char_scan_first_character (val : Nat) (r : cursor) :
    (∀ c, r.input[r.pos]? = some c →
        char_scanner.scan val r = ⟨error.good, c, { r with pos := r.pos + 1 }⟩) ∧
      (r.input.length ≤ r.pos →
        char_scanner.scan val r = ⟨error.end_of_range, val, r⟩) ∧
      char_scanner.skip_preceding_whitespace = false := by
  refine ⟨?_, ?_, rfl⟩
  · intro c hc
    simp [char_scanner.scan, read_char, hc]
  · intro he
    have hc : r.input[r.pos]? = none := by
      simp [List.getElem?_eq_none_iff]
      exact he
    simp [char_scanner.scan, read_char, hc]

/-- On the input of a space followed by `x` the scan returns the space and
advances by one; on the empty input it fails with `end_of_range`. -/
theorem char_scan_first_character_witness :
    char_scanner.scan 0 ⟨widen " x", 0⟩ = ⟨error.good, 0x20, ⟨widen " x", 0 + 1⟩⟩ ∧
      char_scanner.scan 7 ⟨[], 0⟩ = ⟨error.end_of_range, 7, ⟨[], 0⟩⟩ :=
  ⟨(char_scan_first_character 0 ⟨widen " x", 0⟩).1 0x20 (by decide),
    (char_scan_first_character 7 ⟨[], 0⟩).2.1 (by decide)⟩

/-! ### C17, C18, C20: the string form of the boolean scanner -/

theorem prefix_iff_take (name buf : List Nat) :
    name <+: buf ↔ name.length ≤ buf.length ∧ buf.take name.length = name := by
  constructor
  · intro h
    exact ⟨h.length_le, List.prefix_iff_eq_take.mp h |>.symm⟩
  · rintro ⟨_, h⟩
    rw [← h]
    exact List.take_prefix _ _

/-- An error of the word read is returned to the caller at once, whatever
the other flags and the integer scanner are. -/
theorem scan_word_read_error (self : bool_scanner) (int_scan : integer_scan_fn)
    (loc : locale) (val : Bool) (r r1 : cursor) (e : error) (buf : List Nat)
    (hs : self.format_options &&& bool_scanner.allow_string ≠ 0)
    (hread : read_until_space r
      (make_is_space_predicate loc self.common_options.localized) false = (e, buf, r1))
    (he : e ≠ error.good) :
    bool_scanner.scan self int_scan loc val r = some ⟨e, val, r1⟩ := by
  have hok : e.ok = false := by
    cases e
    · exact absurd rfl he
    all_goals rfl
  simp [bool_scanner.scan, hs, hread, hok]

/-- C17: in the string-form attempt of `bool_scanner::scan`, with `buf` the
characters read up to the next white space or the end of input: the result
is `false` when the active false-name is a prefix of `buf`, that is when
`buf` is at least as long as the name and starts with it; it is `true` when
that test fails and the active true-name is a prefix of `buf`; otherwise the
attempt yields no value and the scan continues as without the string form.
So the false-name is tested first and wins when both names are prefixes.
With the string form alone these are equivalences.  The active pair is the
localized pair iff the `localized` option is set, else the static pair. -/
theorem bool_scan_string_form_order (self : bool_scanner) (int_scan : integer_scan_fn)
    (loc : locale) (val : Bool) (r : cursor)
    (hs : self.format_options &&& bool_scanner.allow_string ≠ 0)
    (hne : r.pos < r.input.length) :
    read_until_space r (make_is_space_predicate loc self.common_options.localized) false
        = (error.good, leading_word loc self.common_options.localized r,
            { r with pos := r.pos + (leading_word loc self.common_options.localized r).length }) ∧
      (active_falsename self loc <+: leading_word loc self.common_options.localized r →
        bool_scanner.scan self int_scan loc val r
          = some ⟨error.good, false, { r with pos := r.pos
              + (leading_word loc self.common_options.localized r).length }⟩) ∧
      (¬ active_falsename self loc <+: leading_word loc self.common_options.localized r →
        active_truename self loc <+: leading_word loc self.common_options.localized r →
        bool_scanner.scan self int_scan loc val r
          = some ⟨error.good, true, { r with pos := r.pos
              + (leading_word loc self.common_options.localized r).length }⟩) ∧
      (¬ active_falsename self loc <+: leading_word loc self.common_options.localized r →
        ¬ active_truename self loc <+: leading_word loc self.common_options.localized r →
        bool_scanner.scan self int_scan loc val r
          = bool_scanner.scan ⟨self.common_options, self.format_options &&& 6⟩ int_scan loc
              val r) ∧
      (self.format_options &&& bool_scanner.allow_int = 0 →
        ((∃ r1, bool_scanner.scan self int_scan loc val r = some ⟨error.good, false, r1⟩) ↔
            active_falsename self loc
              <+: leading_word loc self.common_options.localized r) ∧
          ((∃ r1, bool_scanner.scan self int_scan loc val r = some ⟨error.good, true, r1⟩) ↔
            (¬ active_falsename self loc
                <+: leading_word loc self.common_options.localized r ∧
              active_truename self loc
                <+: leading_word loc self.common_options.localized r))) ∧
      (∀ name : List Nat,
        name <+: leading_word loc self.common_options.localized r ↔
          name.length ≤ (leading_word loc self.common_options.localized r).length ∧
            (leading_word loc self.common_options.localized r).take name.length = name) ∧
      active_falsename self loc
        = (if self.common_options.localized = true then loc.localized_falsename
            else loc.static_falsename) ∧
      active_truename self loc
        = (if self.common_options.localized = true then loc.localized_truename
            else loc.static_truename) := by
  have key := scan_string_form self int_scan loc val r hs hne
  refine ⟨read_until_space_word loc _ r hne, ?_, ?_, ?_, ?_,
    fun name => prefix_iff_take name _, rfl, rfl⟩
  · intro hf
    rw [key, if_pos hf]
  · intro hf ht
    rw [key, if_neg hf, if_pos ht]
  · intro hf ht
    rw [key, if_neg hf, if_neg ht]
  · intro hi
    have hnone : bool_scanner.scan ⟨self.common_options, self.format_options &&& 6⟩
        int_scan loc val r = some ⟨error.invalid_scanned_value, val, r⟩ :=
      scan_no_form _ int_scan loc val r (and_six_allow_string _)
        (by rw [and_six_allow_int]; exact hi)
    constructor
    · constructor
      · rintro ⟨r1, h⟩
        by_contra hf
        rw [key, if_neg hf] at h
        split_ifs at h with ht
        · simp at h
        · rw [hnone] at h
          simp at h
      · intro hf
        exact ⟨_, by rw [key, if_pos hf]⟩
    · constructor
      · rintro ⟨r1, h⟩
        rw [key] at h
        split_ifs at h with hf ht
        · simp at h
        · exact ⟨hf, ht⟩
        · rw [hnone] at h
          simp at h
      · rintro ⟨hf, ht⟩
        exact ⟨_, by rw [key, if_neg hf, if_pos ht]⟩

/-- With the static names `true` and `false`, the input `false` yields
`false` and the cursor advances by five. -/
theorem bool_scan_string_form_order_witness :
    bool_scanner.scan {} decimal_integer_scan classic_locale true ⟨widen "false", 0⟩
      = some ⟨error.good, false, { (⟨widen "false", 0⟩ : cursor) with pos := 0
          + (leading_word classic_locale false ⟨widen "false", 0⟩).length }⟩ :=
  (bool_scan_string_form_order {} decimal_integer_scan classic_locale true
    ⟨widen "false", 0⟩ (by decide) (by decide)).2.1 (by decide)

/-- C20: when the string form is allowed and the leading word of the input
is strictly longer than the matched name but starts with it,
`bool_scanner::scan` succeeds with the matched value and the cursor is
advanced past the entire word, by the length of the word up to the first
white space or the end of input, not by the length of the matched name. -/
theorem bool_scan_consumes_whole_word (self : bool_scanner) (int_scan : integer_scan_fn)
    (loc : locale) (val : Bool) (r : cursor)
    (hs : self.format_options &&& bool_scanner.allow_string ≠ 0)
    (hne : r.pos < r.input.length) :
    (active_falsename self loc <+: leading_word loc self.common_options.localized r →
        (active_falsename self loc).length
          < (leading_word loc self.common_options.localized r).length →
        bool_scanner.scan self int_scan loc val r
            = some ⟨error.good, false, { r with pos := r.pos
                + (leading_word loc self.common_options.localized r).length }⟩ ∧
          r.pos + (leading_word loc self.common_options.localized r).length
            ≠ r.pos + (active_falsename self loc).length) ∧
      (¬ active_falsename self loc <+: leading_word loc self.common_options.localized r →
        active_truename self loc <+: leading_word loc self.common_options.localized r →
        (active_truename self loc).length
          < (leading_word loc self.common_options.localized r).length →
        bool_scanner.scan self int_scan loc val r
            = some ⟨error.good, true, { r with pos := r.pos
                + (leading_word loc self.common_options.localized r).length }⟩ ∧
          r.pos + (leading_word loc self.common_options.localized r).length
            ≠ r.pos + (active_truename self loc).length) := by
  have key := scan_string_form self int_scan loc val r hs hne
  constructor
  · intro hf hlong
    exact ⟨by rw [key, if_pos hf], by omega⟩
  · intro hf ht hlong
    exact ⟨by rw [key, if_neg hf, if_pos ht], by omega⟩

/-- With the static names, `falsehood` yields `false` with the cursor
advanced by nine, and `truex yz` yields `true` with the cursor advanced by
five, up to the space. -/
theorem bool_scan_consumes_whole_word_witness :
    (bool_scanner.scan {} decimal_integer_scan classic_locale true ⟨widen "falsehood", 0⟩
          = some ⟨error.good, false, { (⟨widen "falsehood", 0⟩ : cursor) with pos := 0
              + (leading_word classic_locale false ⟨widen "falsehood", 0⟩).length }⟩ ∧
        0 + (leading_word classic_locale false ⟨widen "falsehood", 0⟩).length
          ≠ 0 + (active_falsename {} classic_locale).length) ∧
      (bool_scanner.scan {} decimal_integer_scan classic_locale false ⟨widen "truex yz", 0⟩
          = some ⟨error.good, true, { (⟨widen "truex yz", 0⟩ : cursor) with pos := 0
              + (leading_word classic_locale false ⟨widen "truex yz", 0⟩).length }⟩ ∧
        0 + (leading_word classic_locale false ⟨widen "truex yz", 0⟩).length
          ≠ 0 + (active_truename {} classic_locale).length) ∧
      (leading_word classic_locale false ⟨widen "falsehood", 0⟩).length = 9 ∧
      (leading_word classic_locale false ⟨widen "truex yz", 0⟩).length = 5 :=
  ⟨(bool_scan_consumes_whole_word {} decimal_integer_scan classic_locale true
      ⟨widen "falsehood", 0⟩ (by decide) (by decide)).1 (by decide) (by decide),
    (bool_scan_consumes_whole_word {} decimal_integer_scan classic_locale false
      ⟨widen "truex yz", 0⟩ (by decide) (by decide)).2 (by decide) (by decide) (by decide),
    by decide, by decide⟩

/-! ### C19: the decoder accepts exactly well-formed UTF-8 -/

theorem get_sequence_length_le (b : Nat) : get_sequence_length b ≤ 4 := by
  rw [get_sequence_length_eq]
  split_ifs <;> omega

/-- A two-byte lead followed by nothing or by a byte that is no continuation
byte is rejected. -/
theorem validate_next_two_bad (b0 : Nat) (t : List Nat) (c : Nat)
    (hlen : get_sequence_length b0 = 2)
    (ht : t = [] ∨ ∃ b1 rest, t = b1 :: rest ∧ is_trail b1 = false) :
    ∃ it v, validate_next (b0 :: t) 0 c = some ⟨error.invalid_encoding, it, v⟩ := by
  rcases ht with rfl | ⟨b1, rest, rfl, h1⟩
  · simp [validate_next, hlen, get_sequence_2, increase_safely, error.ok]
  · simp [validate_next, hlen, get_sequence_2, increase_safely, error.ok, h1]

theorem validate_next_three_bad (b0 : Nat) (t : List Nat) (c : Nat)
    (hlen : get_sequence_length b0 = 3)
    (ht : t = [] ∨ (∃ b1 rest, t = b1 :: rest ∧ is_trail b1 = false) ∨
      (∃ b1, t = [b1] ∧ is_trail b1 = true) ∨
      (∃ b1 b2 rest, t = b1 :: b2 :: rest ∧ is_trail b1 = true ∧ is_trail b2 = false)) :
    ∃ it v, validate_next (b0 :: t) 0 c = some ⟨error.invalid_encoding, it, v⟩ := by
  rcases ht with rfl | ⟨b1, rest, rfl, h1⟩ | ⟨b1, rfl, h1⟩ | ⟨b1, b2, rest, rfl, h1, h2⟩
  · simp [validate_next, hlen, get_sequence_3, increase_safely, error.ok]
  · simp [validate_next, hlen, get_sequence_3, increase_safely, error.ok, h1]
  · simp [validate_next, hlen, get_sequence_3, increase_safely, error.ok, h1]
  · simp [validate_next, hlen, get_sequence_3, increase_safely, error.ok, h1, h2]

theorem validate_next_four_bad (b0 : Nat) (t : List Nat) (c : Nat)
    (hlen : get_sequence_length b0 = 4)
    (ht : t = [] ∨ (∃ b1 rest, t = b1 :: rest ∧ is_trail b1 = false) ∨
      (∃ b1, t = [b1] ∧ is_trail b1 = true) ∨
      (∃ b1 b2 rest, t = b1 :: b2 :: rest ∧ is_trail b1 = true ∧ is_trail b2 = false) ∨
      (∃ b1 b2, t = [b1, b2] ∧ is_trail b1 = true ∧ is_trail b2 = true) ∨
      (∃ b1 b2 b3 rest, t = b1 :: b2 :: b3 :: rest ∧ is_trail b1 = true ∧
        is_trail b2 = true ∧ is_trail b3 = false)) :
    ∃ it v, validate_next (b0 :: t) 0 c = some ⟨error.invalid_encoding, it, v⟩ := by
  rcases ht with rfl | ⟨b1, rest, rfl, h1⟩ | ⟨b1, rfl, h1⟩ | ⟨b1, b2, rest, rfl, h1, h2⟩ |
    ⟨b1, b2, rfl, h1, h2⟩ | ⟨b1, b2, b3, rest, rfl, h1, h2, h3⟩
  · simp [validate_next, hlen, get_sequence_4, increase_safely, error.ok]
  · simp [validate_next, hlen, get_sequence_4, increase_safely, error.ok, h1]
  · simp [validate_next, hlen, get_sequence_4, increase_safely, error.ok, h1]
  · simp [validate_next, hlen, get_sequence_4, increase_safely, error.ok, h1, h2]
  · simp [validate_next, hlen, get_sequence_4, increase_safely, error.ok, h1, h2]
  · simp [validate_next, hlen, get_sequence_4, increase_safely, error.ok, h1, h2, h3]

/-- Every outcome of `validate_next` on a non-empty sequence: a rejection
with `invalid_encoding`, or a success after one, two, three or four bytes
whose continuation bytes are all continuation bytes and whose value is a
valid code point in its minimal length. -/
theorem validate_next_outcome (b0 : Nat) (t : List Nat) (c : Nat) :
    (∃ it v, validate_next (b0 :: t) 0 c = some ⟨error.invalid_encoding, it, v⟩) ∨
      (get_sequence_length b0 = 1 ∧
        validate_next (b0 :: t) 0 c = some ⟨error.good, 1, b0 % 256⟩) ∨
      (∃ b1 rest, t = b1 :: rest ∧ get_sequence_length b0 = 2 ∧ is_trail b1 = true ∧
        is_code_point_valid (utf8_value_2 b0 b1) = true ∧
        is_overlong_sequence (utf8_value_2 b0 b1) 2 = false ∧
        validate_next (b0 :: t) 0 c = some ⟨error.good, 2, utf8_value_2 b0 b1⟩) ∨
      (∃ b1 b2 rest, t = b1 :: b2 :: rest ∧ get_sequence_length b0 = 3 ∧
        is_trail b1 = true ∧ is_trail b2 = true ∧
        is_code_point_valid (utf8_value_3 b0 b1 b2) = true ∧
        is_overlong_sequence (utf8_value_3 b0 b1 b2) 3 = false ∧
        validate_next (b0 :: t) 0 c = some ⟨error.good, 3, utf8_value_3 b0 b1 b2⟩) ∨
      (∃ b1 b2 b3 rest, t = b1 :: b2 :: b3 :: rest ∧ get_sequence_length b0 = 4 ∧
        is_trail b1 = true ∧ is_trail b2 = true ∧ is_trail b3 = true ∧
        is_code_point_valid (utf8_value_4 b0 b1 b2 b3) = true ∧
        is_overlong_sequence (utf8_value_4 b0 b1 b2 b3) 4 = false ∧
        validate_next (b0 :: t) 0 c = some ⟨error.good, 4, utf8_value_4 b0 b1 b2 b3⟩) := by
  have hle := get_sequence_length_le b0
  have hcases : get_sequence_length b0 = 0 ∨ get_sequence_length b0 = 1 ∨
      get_sequence_length b0 = 2 ∨ get_sequence_length b0 = 3 ∨
      get_sequence_length b0 = 4 := by omega
  rcases hcases with h | h | h | h | h
  · left
    exact ⟨0, c, by simp [validate_next, h]⟩
  · right; left
    exact ⟨h, validate_next_one b0 t c h⟩
  · match t with
    | [] => exact Or.inl (validate_next_two_bad b0 [] c h (Or.inl rfl))
    | b1 :: rest =>
      cases h1 : is_trail b1
      · exact Or.inl (validate_next_two_bad b0 _ c h (Or.inr ⟨b1, rest, rfl, h1⟩))
      · have key := validate_next_two b0 b1 rest c h h1
        rw [assembled_2_eq] at key
        by_cases hok : is_code_point_valid (utf8_value_2 b0 b1) = true ∧
            is_overlong_sequence (utf8_value_2 b0 b1) 2 = false
        · rw [if_pos hok] at key
          exact Or.inr (Or.inr (Or.inl ⟨b1, rest, rfl, h, h1, hok.1, hok.2, key⟩))
        · rw [if_neg hok] at key
          exact Or.inl ⟨_, _, key⟩
  · match t with
    | [] => exact Or.inl (validate_next_three_bad b0 [] c h (Or.inl rfl))
    | [b1] =>
      cases h1 : is_trail b1
      · exact Or.inl (validate_next_three_bad b0 _ c h (Or.inr (Or.inl ⟨b1, [], rfl, h1⟩)))
      · exact Or.inl (validate_next_three_bad b0 _ c h (Or.inr (Or.inr (Or.inl ⟨b1, rfl, h1⟩))))
    | b1 :: b2 :: rest =>
      cases h1 : is_trail b1
      · exact Or.inl (validate_next_three_bad b0 _ c h
          (Or.inr (Or.inl ⟨b1, b2 :: rest, rfl, h1⟩)))
      · cases h2 : is_trail b2
        · exact Or.inl (validate_next_three_bad b0 _ c h
            (Or.inr (Or.inr (Or.inr ⟨b1, b2, rest, rfl, h1, h2⟩))))
        · have key := validate_next_three b0 b1 b2 rest c h h1 h2
          rw [assembled_3_eq] at key
          by_cases hok : is_code_point_valid (utf8_value_3 b0 b1 b2) = true ∧
              is_overlong_sequence (utf8_value_3 b0 b1 b2) 3 = false
          · rw [if_pos hok] at key
            exact Or.inr (Or.inr (Or.inr (Or.inl
              ⟨b1, b2, rest, rfl, h, h1, h2, hok.1, hok.2, key⟩)))
          · rw [if_neg hok] at key
            exact Or.inl ⟨_, _, key⟩
  · match t with
    | [] => exact Or.inl (validate_next_four_bad b0 [] c h (Or.inl rfl))
    | [b1] =>
      cases h1 : is_trail b1
      · exact Or.inl (validate_next_four_bad b0 _ c h (Or.inr (Or.inl ⟨b1, [], rfl, h1⟩)))
      · exact Or.inl (validate_next_four_bad b0 _ c h (Or.inr (Or.inr (Or.inl ⟨b1, rfl, h1⟩))))
    | [b1, b2] =>
      cases h1 : is_trail b1
      · exact Or.inl (validate_next_four_bad b0 _ c h (Or.inr (Or.inl ⟨b1, [b2], rfl, h1⟩)))
      · cases h2 : is_trail b2
        · exact Or.inl (validate_next_four_bad b0 _ c h
            (Or.inr (Or.inr (Or.inr (Or.inl ⟨b1, b2, [], rfl, h1, h2⟩)))))
        · exact Or.inl (validate_next_four_bad b0 _ c h
            (Or.inr (Or.inr (Or.inr (Or.inr (Or.inl ⟨b1, b2, rfl, h1, h2⟩))))))
    | b1 :: b2 :: b3 :: rest =>
      cases h1 : is_trail b1
      · exact Or.inl (validate_next_four_bad b0 _ c h
          (Or.inr (Or.inl ⟨b1, b2 :: b3 :: rest, rfl, h1⟩)))
      · cases h2 : is_trail b2
        · exact Or.inl (validate_next_four_bad b0 _ c h
            (Or.inr (Or.inr (Or.inr (Or.inl ⟨b1, b2, b3 :: rest, rfl, h1, h2⟩)))))
        · cases h3 : is_trail b3
          · exact Or.inl (validate_next_four_bad b0 _ c h
              (Or.inr (Or.inr (Or.inr (Or.inr (Or.inr
                ⟨b1, b2, b3, rest, rfl, h1, h2, h3⟩))))))
          · have key := validate_next_four b0 b1 b2 b3 rest c h h1 h2 h3
            rw [assembled_4_eq] at key
            by_cases hok : is_code_point_valid (utf8_value_4 b0 b1 b2 b3) = true ∧
                is_overlong_sequence (utf8_value_4 b0 b1 b2 b3) 4 = false
            · rw [if_pos hok] at key
              exact Or.inr (Or.inr (Or.inr (Or.inr
                ⟨b1, b2, b3, rest, rfl, h, h1, h2, h3, hok.1, hok.2, key⟩)))
            · rw [if_neg hok] at key
              exact Or.inl ⟨_, _, key⟩

theorem not_overlong_bounds (v len : Nat) (h : is_overlong_sequence v len = false) :
    (len = 2 → 0x80 ≤ v) ∧ (len = 3 → 0x800 ≤ v) ∧ (len = 4 → 0x10000 ≤ v) := by
  have h2 : ¬ is_overlong_sequence v len = true := by rw [h]; simp
  rw [is_overlong_sequence_iff] at h2
  omega

theorem utf8_encode_value_2 (b0 b1 : Nat) (h0 : b0 / 0x20 = 6) (h1 : b1 / 0x40 = 2)
    (hv : 0x80 ≤ utf8_value_2 b0 b1) : utf8_encode (utf8_value_2 b0 b1) = [b0, b1] := by
  unfold utf8_value_2 at hv ⊢
  unfold utf8_encode
  rw [if_neg (by omega), if_pos (by omega)]
  congr 1
  · omega
  · congr 1
    omega

theorem utf8_encode_value_3 (b0 b1 b2 : Nat) (h0 : b0 / 0x10 = 0xe) (h1 : b1 / 0x40 = 2)
    (h2 : b2 / 0x40 = 2) (hv : 0x800 ≤ utf8_value_3 b0 b1 b2) :
    utf8_encode (utf8_value_3 b0 b1 b2) = [b0, b1, b2] := by
  unfold utf8_value_3 at hv ⊢
  unfold utf8_encode
  rw [if_neg (by omega), if_neg (by omega), if_pos (by omega)]
  congr 1
  · omega
  · congr 1
    · omega
    · congr 1
      omega

theorem utf8_encode_value_4 (b0 b1 b2 b3 : Nat) (h0 : b0 / 0x8 = 0x1e)
    (h1 : b1 / 0x40 = 2) (h2 : b2 / 0x40 = 2) (h3 : b3 / 0x40 = 2)
    (hv : 0x10000 ≤ utf8_value_4 b0 b1 b2 b3) :
    utf8_encode (utf8_value_4 b0 b1 b2 b3) = [b0, b1, b2, b3] := by
  unfold utf8_value_4 at hv ⊢
  unfold utf8_encode
  rw [if_neg (by omega), if_neg (by omega), if_neg (by omega)]
  congr 1
  · omega
  · congr 1
    · omega
    · congr 1
      · omega
      · congr 1
        omega

theorem pattern_of_trail (b : Nat) (hb : b < 256) (h : is_trail b = true) :
    b / 0x40 = 2 := by
  rw [is_trail_iff] at h
  omega

theorem lead_pattern_of_length (b : Nat) (hb : b < 256) :
    (get_sequence_length b = 1 → b < 0x80) ∧ (get_sequence_length b = 2 → b / 0x20 = 6) ∧
      (get_sequence_length b = 3 → b / 0x10 = 0xe) ∧
      (get_sequence_length b = 4 → b / 0x8 = 0x1e) := by
  rw [get_sequence_length_eq]
  have e : b % 256 = b := Nat.mod_eq_of_lt hb
  rw [e]
  refine ⟨?_, ?_, ?_, ?_⟩ <;> intro h <;> split_ifs at h <;> omega

/-- On a non-empty sequence of bytes the decoder returns, and a success
means that the sequence begins with the minimal encoding of the value
returned, a valid code point, the position being advanced by the length of
that encoding. -/
theorem validate_next_exact (s : List Nat) (c : Nat) (hne : s ≠ [])
    (hbytes : ∀ b ∈ s, b < 256) :
    ∃ d, validate_next s 0 c = some d ∧
      (d.err = error.good ∨ d.err = error.invalid_encoding) ∧
      (d.err = error.good →
        is_code_point_valid d.cp = true ∧ s = utf8_encode d.cp ++ s.drop d.it ∧
          d.it = (utf8_encode d.cp).length) := by
  match s, hne, hbytes with
  | b0 :: t, _, hbytes =>
    have hb0 : b0 < 256 := hbytes b0 (by simp)
    have hlead := lead_pattern_of_length b0 hb0
    rcases validate_next_outcome b0 t c with ⟨it, v, h⟩ | ⟨hl, h⟩ |
      ⟨b1, rest, rfl, hl, h1, hv, ho, h⟩ | ⟨b1, b2, rest, rfl, hl, h1, h2, hv, ho, h⟩ |
      ⟨b1, b2, b3, rest, rfl, hl, h1, h2, h3, hv, ho, h⟩
    · exact ⟨_, h, Or.inr rfl, fun hg => absurd hg (by simp)⟩
    · refine ⟨_, h, Or.inl rfl, fun _ => ?_⟩
      have hlt : b0 < 0x80 := hlead.1 hl
      have e : b0 % 256 = b0 := Nat.mod_eq_of_lt hb0
      have henc : utf8_encode b0 = [b0] := by
        unfold utf8_encode
        rw [if_pos hlt]
      simp only [e, henc]
      refine ⟨?_, by simp, by simp⟩
      rw [is_code_point_valid_iff]
      omega
    · refine ⟨_, h, Or.inl rfl, fun _ => ?_⟩
      have p1 := pattern_of_trail b1 (hbytes b1 (by simp)) h1
      have henc := utf8_encode_value_2 b0 b1 (hlead.2.1 hl) p1
        ((not_overlong_bounds _ _ ho).1 rfl)
      simp only [henc]
      exact ⟨hv, by simp, by simp⟩
    · refine ⟨_, h, Or.inl rfl, fun _ => ?_⟩
      have p1 := pattern_of_trail b1 (hbytes b1 (by simp)) h1
      have p2 := pattern_of_trail b2 (hbytes b2 (by simp)) h2
      have henc := utf8_encode_value_3 b0 b1 b2 (hlead.2.2.1 hl) p1 p2
        ((not_overlong_bounds _ _ ho).2.1 rfl)
      simp only [henc]
      exact ⟨hv, by simp, by simp⟩
    · refine ⟨_, h, Or.inl rfl, fun _ => ?_⟩
      have p1 := pattern_of_trail b1 (hbytes b1 (by simp)) h1
      have p2 := pattern_of_trail b2 (hbytes b2 (by simp)) h2
      have p3 := pattern_of_trail b3 (hbytes b3 (by simp)) h3
      have henc := utf8_encode_value_4 b0 b1 b2 b3 (hlead.2.2.2 hl) p1 p2 p3
        ((not_overlong_bounds _ _ ho).2.2 rfl)
      simp only [henc]
      exact ⟨hv, by simp, by simp⟩

/-- C19: the decoder accepts exactly well-formed UTF-8.  For every non-empty
sequence of bytes `s` at the decoding position, `validate_next` returns a
result whose error is `good` or `invalid_encoding`; it is `good` if and only
if `s` begins with the minimal UTF-8 encoding of some Unicode scalar value;
in that case the value returned is that scalar value and the position is
advanced by the length of its encoding; and `parse_code_point` reports the
same success, or the failure `invalid_encoding` with `cp` untouched. -/
theorem decoder_accepts_exactly_utf8 (pre s : List Nat) (c : Nat) (hne : s ≠ [])
    (hbytes : ∀ b ∈ s, b < 256) :
    ∃ d, validate_next (pre ++ s) pre.length c = some d ∧
      (d.err = error.good ∨ d.err = error.invalid_encoding) ∧
      (d.err = error.good ↔
        ∃ cp rest, cp ≤ 0x10FFFF ∧ ¬ (0xD800 ≤ cp ∧ cp ≤ 0xDFFF) ∧
          s = utf8_encode cp ++ rest) ∧
      (∀ cp rest, cp ≤ 0x10FFFF → ¬ (0xD800 ≤ cp ∧ cp ≤ 0xDFFF) →
        s = utf8_encode cp ++ rest →
        d = ⟨error.good, pre.length + (utf8_encode cp).length, cp⟩) ∧
      parse_code_point (pre ++ s) pre.length c =
        some (if d.err = error.good then (expected.value d.it, d.cp)
          else (expected.failure error.invalid_encoding, c)) := by
  obtain ⟨d, hd, hkind, hgood⟩ := validate_next_exact s c hne hbytes
  obtain ⟨d0, hd0, hkind0, hgood0⟩ := validate_next_exact s 0 hne hbytes
  have hat := validate_next_at pre s c d hd
  have hat0 := validate_next_at pre s 0 d0 hd0
  have huniq : ∀ cp rest, cp ≤ 0x10FFFF → ¬ (0xD800 ≤ cp ∧ cp ≤ 0xDFFF) →
      s = utf8_encode cp ++ rest →
      ∀ c2 d2, validate_next s 0 c2 = some d2 →
        d2 = ⟨error.good, (utf8_encode cp).length, cp⟩ := by
    intro cp rest hmax hsur hs c2 d2 h2
    have key := validate_next_utf8_encode cp rest c2 hmax hsur
    rw [← hs, h2] at key
    exact Option.some.inj key
  refine ⟨_, hat, hkind, ⟨?_, ?_⟩, ?_, ?_⟩
  · intro hg
    obtain ⟨hv, hs, _⟩ := hgood hg
    rw [is_code_point_valid_iff] at hv
    exact ⟨d.cp, s.drop d.it, hv.1, hv.2, hs⟩
  · rintro ⟨cp, rest, hmax, hsur, hs⟩
    have := huniq cp rest hmax hsur hs c d hd
    rw [this]
  · intro cp rest hmax hsur hs
    have := huniq cp rest hmax hsur hs c d hd
    rw [this]
  · by_cases hg : d.err = error.good
    · obtain ⟨hv, hs, _⟩ := hgood hg
      rw [is_code_point_valid_iff] at hv
      have e1 := huniq d.cp _ hv.1 hv.2 hs c d hd
      have e0 := huniq d.cp _ hv.1 hv.2 hs 0 d0 hd0
      rw [e0] at hat0
      have hp := parse_code_point_of_good _ _ _ _ hat0 c
      rw [hp]
      simp only [hg, if_true]
      rw [e1]
    · have hg0 : d0.err ≠ error.good := by
        intro h0
        obtain ⟨hv, hs, _⟩ := hgood0 h0
        rw [is_code_point_valid_iff] at hv
        have e1 := huniq d0.cp _ hv.1 hv.2 hs c d hd
        exact hg (by rw [e1])
      have hinv : d0.err = error.invalid_encoding := by
        rcases hkind0 with h | h
        · exact absurd h hg0
        · exact h
      have hp := parse_code_point_of_error _ _ _ hat0 hg0 c
      rw [hp]
      simp only [hg, if_false]
      rw [hinv]

/-- The sequence `E2 82 AC 41` behind the byte `0x61` begins with the
encoding of `U+20AC` and is decoded to it. -/
theorem decoder_accepts_exactly_utf8_witness :
    ∃ d, validate_next ([0x61] ++ [0xe2, 0x82, 0xac, 0x41]) [0x61].length 7 = some d ∧
      (d.err = error.good ∨ d.err = error.invalid_encoding) ∧
      (d.err = error.good ↔
        ∃ cp rest, cp ≤ 0x10FFFF ∧ ¬ (0xD800 ≤ cp ∧ cp ≤ 0xDFFF) ∧
          [0xe2, 0x82, 0xac, 0x41] = utf8_encode cp ++ rest) ∧
      (∀ cp rest, cp ≤ 0x10FFFF → ¬ (0xD800 ≤ cp ∧ cp ≤ 0xDFFF) →
        [0xe2, 0x82, 0xac, 0x41] = utf8_encode cp ++ rest →
        d = ⟨error.good, [0x61].length + (utf8_encode cp).length, cp⟩) ∧
      parse_code_point ([0x61] ++ [0xe2, 0x82, 0xac, 0x41]) [0x61].length 7 =
        some (if d.err = error.good then (expected.value d.it, d.cp)
          else (expected.failure error.invalid_encoding, 7)) :=
  decoder_accepts_exactly_utf8 [0x61] [0xe2, 0x82, 0xac, 0x41] 7 (by decide) (by decide)

/-! ### C21: the decoder stays inside the sequence -/

theorem read_in_bounds (s : List Nat) (it : Nat) (h : it < s.length) :
    ∃ b, s[it]? = some b :=
  ⟨s[it], List.getElem?_eq_getElem h⟩

theorem error_ok_false (e : error) (h : e ≠ error.good) : e.ok = false := by
  cases e
  · exact absurd rfl h
  all_goals rfl

/-- Called before the end, `increase_safely` returns: it reads only after
having compared the advanced position with the end, the position it leaves
is at most the end, and strictly before it when no error is reported. -/
theorem increase_safely_in_bounds (s : List Nat) (it : Nat) (h : it < s.length) :
    ∃ e j, increase_safely s it = some (e, j) ∧ j = it + 1 ∧ j ≤ s.length ∧
      (e = error.good → j < s.length) := by
  by_cases hend : it + 1 = s.length
  · have heq : increase_safely s it = some (error.invalid_encoding, it + 1) := by
      simp [increase_safely, hend]
    exact ⟨_, _, heq, rfl, by omega, by simp⟩
  · obtain ⟨b, hb⟩ := read_in_bounds s (it + 1) (by omega)
    cases ht : is_trail b
    · have heq : increase_safely s it = some (error.invalid_encoding, it + 1) := by
        simp [increase_safely, hend, hb, ht]
      exact ⟨_, _, heq, rfl, by omega, by simp⟩
    · have heq : increase_safely s it = some (error.good, it + 1) := by
        simp [increase_safely, hend, hb, ht]
      exact ⟨_, _, heq, rfl, by omega, fun _ => by omega⟩

theorem get_sequence_1_in_bounds (s : List Nat) (it c : Nat) (h : it < s.length) :
    ∃ d, get_sequence_1 s it c = some d ∧ d.it ≤ s.length ∧
      (d.err = error.good → d.it < s.length) := by
  obtain ⟨b, hb⟩ := read_in_bounds s it h
  have hne : it ≠ s.length := by omega
  have heq : get_sequence_1 s it c = some ⟨error.good, it, mask8 b⟩ := by
    simp [get_sequence_1, hne, hb]
  exact ⟨_, heq, by simp; omega, fun _ => h⟩

theorem get_sequence_2_in_bounds (s : List Nat) (it c : Nat) (h : it < s.length) :
    ∃ d, get_sequence_2 s it c = some d ∧ d.it ≤ s.length ∧
      (d.err = error.good → d.it < s.length) := by
  obtain ⟨b0, hb0⟩ := read_in_bounds s it h
  have hne : it ≠ s.length := by omega
  obtain ⟨e1, j1, h1, _, hle1, hlt1⟩ := increase_safely_in_bounds s it h
  by_cases he1 : e1 = error.good
  · subst he1
    obtain ⟨b1, hb1⟩ := read_in_bounds s j1 (hlt1 rfl)
    have heq : get_sequence_2 s it c
        = some ⟨error.good, j1, ((mask8 b0 <<< 6) &&& 0x7ff) + (b1 &&& 0x3f)⟩ := by
      simp [get_sequence_2, hne, hb0, h1, hb1, error.ok]
    exact ⟨_, heq, hle1, fun _ => hlt1 rfl⟩
  · have heq : get_sequence_2 s it c = some ⟨e1, j1, mask8 b0⟩ := by
      simp [get_sequence_2, hne, hb0, h1, error_ok_false e1 he1]
    exact ⟨_, heq, hle1, fun hg => absurd hg he1⟩

theorem get_sequence_3_in_bounds (s : List Nat) (it c : Nat) (h : it < s.length) :
    ∃ d, get_sequence_3 s it c = some d ∧ d.it ≤ s.length ∧
      (d.err = error.good → d.it < s.length) := by
  obtain ⟨b0, hb0⟩ := read_in_bounds s it h
  have hne : it ≠ s.length := by omega
  obtain ⟨e1, j1, h1, _, hle1, hlt1⟩ := increase_safely_in_bounds s it h
  by_cases he1 : e1 = error.good
  · subst he1
    obtain ⟨b1, hb1⟩ := read_in_bounds s j1 (hlt1 rfl)
    obtain ⟨e2, j2, h2, _, hle2, hlt2⟩ := increase_safely_in_bounds s j1 (hlt1 rfl)
    by_cases he2 : e2 = error.good
    · subst he2
      obtain ⟨b2, hb2⟩ := read_in_bounds s j2 (hlt2 rfl)
      have heq : get_sequence_3 s it c
          = some ⟨error.good, j2,
              ((mask8 b0 <<< 12) &&& 0xffff) + ((mask8 b1 <<< 6) &&& 0xfff)
                + (b2 &&& 0x3f)⟩ := by
        simp [get_sequence_3, hne, hb0, h1, hb1, h2, hb2, error.ok]
      exact ⟨_, heq, hle2, fun _ => hlt2 rfl⟩
    · have heq : get_sequence_3 s it c
          = some ⟨e2, j2,
              ((mask8 b0 <<< 12) &&& 0xffff) + ((mask8 b1 <<< 6) &&& 0xfff)⟩ := by
        simp [get_sequence_3, hne, hb0, h1, hb1, h2, error_ok_false e2 he2, error.ok]
      exact ⟨_, heq, hle2, fun hg => absurd hg he2⟩
  · have heq : get_sequence_3 s it c = some ⟨e1, j1, mask8 b0⟩ := by
      simp [get_sequence_3, hne, hb0, h1, error_ok_false e1 he1]
    exact ⟨_, heq, hle1, fun hg => absurd hg he1⟩

theorem get_sequence_4_in_bounds (s : List Nat) (it c : Nat) (h : it < s.length) :
    ∃ d, get_sequence_4 s it c = some d ∧ d.it ≤ s.length ∧
      (d.err = error.good → d.it < s.length) := by
  obtain ⟨b0, hb0⟩ := read_in_bounds s it h
  have hne : it ≠ s.length := by omega
  obtain ⟨e1, j1, h1, _, hle1, hlt1⟩ := increase_safely_in_bounds s it h
  by_cases he1 : e1 = error.good
  · subst he1
    obtain ⟨b1, hb1⟩ := read_in_bounds s j1 (hlt1 rfl)
    obtain ⟨e2, j2, h2, _, hle2, hlt2⟩ := increase_safely_in_bounds s j1 (hlt1 rfl)
    by_cases he2 : e2 = error.good
    · subst he2
      obtain ⟨b2, hb2⟩ := read_in_bounds s j2 (hlt2 rfl)
      obtain ⟨e3, j3, h3, _, hle3, hlt3⟩ := increase_safely_in_bounds s j2 (hlt2 rfl)
      by_cases he3 : e3 = error.good
      · subst he3
        obtain ⟨b3, hb3⟩ := read_in_bounds s j3 (hlt3 rfl)
        have heq : get_sequence_4 s it c
            = some ⟨error.good, j3,
                ((mask8 b0 <<< 18) &&& 0x1fffff) + ((mask8 b1 <<< 12) &&& 0x3ffff)
                  + ((mask8 b2 <<< 6) &&& 0xfff) + (b3 &&& 0x3f)⟩ := by
          simp [get_sequence_4, hne, hb0, h1, hb1, h2, hb2, h3, hb3, error.ok]
        exact ⟨_, heq, hle3, fun _ => hlt3 rfl⟩
      · have heq : get_sequence_4 s it c
            = some ⟨e3, j3,
                ((mask8 b0 <<< 18) &&& 0x1fffff) + ((mask8 b1 <<< 12) &&& 0x3ffff)
                  + ((mask8 b2 <<< 6) &&& 0xfff)⟩ := by
          simp [get_sequence_4, hne, hb0, h1, hb1, h2, hb2, h3, error_ok_false e3 he3,
            error.ok]
        exact ⟨_, heq, hle3, fun hg => absurd hg he3⟩
    · have heq : get_sequence_4 s it c
          = some ⟨e2, j2,
              ((mask8 b0 <<< 18) &&& 0x1fffff) + ((mask8 b1 <<< 12) &&& 0x3ffff)⟩ := by
        simp [get_sequence_4, hne, hb0, h1, hb1, h2, error_ok_false e2 he2, error.ok]
      exact ⟨_, heq, hle2, fun hg => absurd hg he2⟩
  · have heq : get_sequence_4 s it c = some ⟨e1, j1, mask8 b0⟩ := by
      simp [get_sequence_4, hne, hb0, h1, error_ok_false e1 he1]
    exact ⟨_, heq, hle1, fun hg => absurd hg he1⟩

/-- What `validate_next` makes of the result of the helper it called. -/
theorem validate_next_of_helper (s : List Nat) (it c b len : Nat) (d : decoded)
    (hne : it ≠ s.length) (hb : s[it]? = some b) (hlen : get_sequence_length b = len)
    (h0 : len ≠ 0)
    (hr : (if len = 1 then get_sequence_1 s it c
        else if len = 2 then get_sequence_2 s it c
        else if len = 3 then get_sequence_3 s it c
        else if len = 4 then get_sequence_4 s it c
        else some ⟨error.good, it, c⟩) = some d)
    (hle : d.it ≤ s.length) (hlt : d.err = error.good → d.it < s.length) :
    ∃ d2, validate_next s it c = some d2 ∧ d2.it ≤ s.length := by
  obtain ⟨e, j, v⟩ := d
  by_cases he : e = error.good
  · subst he
    have hj : j < s.length := hlt rfl
    by_cases hbad : (!is_code_point_valid v || is_overlong_sequence v len) = true
    · have heq : validate_next s it c = some ⟨error.invalid_encoding, j, v⟩ := by
        simp only [validate_next, if_neg hne, hb, hlen, if_neg h0, hr]
        simp [error.ok, hbad]
      exact ⟨_, heq, hle⟩
    · have heq : validate_next s it c = some ⟨error.good, j + 1, v⟩ := by
        simp only [validate_next, if_neg hne, hb, hlen, if_neg h0, hr]
        simp [error.ok, hbad]
      exact ⟨_, heq, hj⟩
  · have heq : validate_next s it c = some ⟨e, j, v⟩ := by
      simp only [validate_next, if_neg hne, hb, hlen, if_neg h0, hr]
      simp [error_ok_false e he]
    exact ⟨_, heq, hle⟩

/-- C21: under the precondition that the decoding position is before the
end (`it != end`), `validate_next` never reads a byte at or beyond the end
and none of its precondition assertions fails: it returns a result, with
the position at most the end, and so does `parse_code_point`.  The same
holds for each helper it calls, `get_sequence_1` to `get_sequence_4`, which
are entered with the same position; and every `increase_safely` entered
before the end returns, leaving a position at most the end and strictly
before it whenever it reports no error, so the continuation-byte read that
follows it is inside the sequence. -/
theorem validate_next_in_bounds (s : List Nat) (it c : Nat) (h : it < s.length) :
    (∃ d, validate_next s it c = some d ∧ d.it ≤ s.length) ∧
      (∃ res, parse_code_point s it c = some res) ∧
      (∃ d, get_sequence_1 s it c = some d ∧ d.it ≤ s.length) ∧
      (∃ d, get_sequence_2 s it c = some d ∧ d.it ≤ s.length) ∧
      (∃ d, get_sequence_3 s it c = some d ∧ d.it ≤ s.length) ∧
      (∃ d, get_sequence_4 s it c = some d ∧ d.it ≤ s.length) ∧
      (∀ j, j < s.length →
        ∃ e j2, increase_safely s j = some (e, j2) ∧ j2 = j + 1 ∧ j2 ≤ s.length ∧
          (e = error.good → j2 < s.length ∧ ∃ b, s[j2]? = some b)) := by
  have hne : it ≠ s.length := by omega
  have main : ∀ c, ∃ d, validate_next s it c = some d ∧ d.it ≤ s.length := by
    intro c
    obtain ⟨b, hb⟩ := read_in_bounds s it h
    have hle := get_sequence_length_le b
    have hcases : get_sequence_length b = 0 ∨ get_sequence_length b = 1 ∨
        get_sequence_length b = 2 ∨ get_sequence_length b = 3 ∨
        get_sequence_length b = 4 := by omega
    rcases hcases with h0 | h1 | h2 | h3 | h4
    · have heq : validate_next s it c = some ⟨error.invalid_encoding, it, c⟩ := by
        simp [validate_next, hne, hb, h0]
      exact ⟨_, heq, by simp; omega⟩
    · obtain ⟨d, hd, hle, hlt⟩ := get_sequence_1_in_bounds s it c h
      exact validate_next_of_helper s it c b 1 d hne hb h1 (by decide) (by simp [hd]) hle hlt
    · obtain ⟨d, hd, hle, hlt⟩ := get_sequence_2_in_bounds s it c h
      exact validate_next_of_helper s it c b 2 d hne hb h2 (by decide) (by simp [hd]) hle hlt
    · obtain ⟨d, hd, hle, hlt⟩ := get_sequence_3_in_bounds s it c h
      exact validate_next_of_helper s it c b 3 d hne hb h3 (by decide) (by simp [hd]) hle hlt
    · obtain ⟨d, hd, hle, hlt⟩ := get_sequence_4_in_bounds s it c h
      exact validate_next_of_helper s it c b 4 d hne hb h4 (by decide) (by simp [hd]) hle hlt
  refine ⟨main c, ?_, ?_, ?_, ?_, ?_, ?_⟩
  · obtain ⟨d, hd, _⟩ := main 0
    obtain ⟨e, j, v⟩ := d
    by_cases he : e = error.good
    · exact ⟨_, parse_code_point_of_good s it j v (by rw [hd, he]) c⟩
    · exact ⟨_, parse_code_point_of_error s it _ hd he c⟩
  · obtain ⟨d, hd, hle, _⟩ := get_sequence_1_in_bounds s it c h
    exact ⟨d, hd, hle⟩
  · obtain ⟨d, hd, hle, _⟩ := get_sequence_2_in_bounds s it c h
    exact ⟨d, hd, hle⟩
  · obtain ⟨d, hd, hle, _⟩ := get_sequence_3_in_bounds s it c h
    exact ⟨d, hd, hle⟩
  · obtain ⟨d, hd, hle, _⟩ := get_sequence_4_in_bounds s it c h
    exact ⟨d, hd, hle⟩
  · intro j hj
    obtain ⟨e, j2, heq, hj2, hle, hlt⟩ := increase_safely_in_bounds s j hj
    exact ⟨e, j2, heq, hj2, hle, fun hg => ⟨hlt hg, read_in_bounds s j2 (hlt hg)⟩⟩

/-- On the two bytes `E2 82` with the decoder at position 0: it returns at
position 2, the end, without reading there. -/
theorem validate_next_in_bounds_witness :
    ∃ d, validate_next [0xe2, 0x82] 0 7 = some d ∧ d.it ≤ [0xe2, 0x82].length :=
  (validate_next_in_bounds [0xe2, 0x82] 0 7 (by decide)).1
